import Mathlib

/-!
Shallow embedding of the `lit_review_app` retrieval and analysis core
(`src/retrieval/search.py`, `src/retrieval/query_understanding.py`,
`src/retrieval/db.py`, `src/analysis/service.py`), together with theorems
settling the frozen claims about the hybrid score-fusion ranker, the
distribution aggregator, the query parser and the collection analytics.

Modelling conventions:
* Python floats are modelled as `ℚ` (all arithmetic in the fused ranker is
  exact on the rationals involved: sums, products, divisions, min/max).
* Python `str` is modelled as `String`; `.lower()` is modelled on the ASCII
  range (the code's fixed needles are ASCII or CJK, and CJK is unaffected).
* The external backends (Elasticsearch BM25, FAISS vector search, SQLite) are
  I/O collaborators; they enter as function-valued parameters of a
  `SearchEnv`, exactly at the call signatures used by `hybrid_search`.
* A Python expression that raises an uncaught exception is modelled by
  `Option`/`none` (this happens in `_title_match_bonus`, see below).
* Python `dict` iteration order is insertion order; `Counter` and the
  `id_scores` dict are modelled as insertion-ordered association lists.
* `list.sort(key=..., reverse=True)` is a stable descending sort; it is
  modelled by `List.mergeSort` with the reflexive descending comparator.
-/

attribute [local semireducible] Rat.add Rat.mul Rat.inv Rat.sub

unseal List.merge List.mergeSort

/-- Value of the `year` field of a paper metadata row, as produced by
`fetch_papers_by_ids` in `src/retrieval/db.py`
(`int(r[3]) if r[3] and str(r[3]).isdigit() else r[3]`): an integer, a
missing/falsy value (`None`, `""`, absent key), or a truthy string on which
`int()` raises. -/
inductive YearField
  | missing
  | val (y : Int)
  | malformed
deriving DecidableEq

/-- Paper metadata row as returned by `fetch_papers_by_ids`
(`src/retrieval/db.py` lines 81-110); fields not read by the ranker
(authors, keywords, field, pdf_path) are omitted. -/
structure PaperMeta where
  paperId : String
  title : String
  journal : String
  abstract : String
  year : YearField
  source : String
deriving DecidableEq

/-- ASCII lowercasing of one character, modelling Python `str.lower()` on the
character ranges the ranker's needles use (ASCII letters; CJK is unaffected
by `lower()`). -/
def lowerChar (c : Char) : Char :=
  if 'A' ≤ c ∧ c ≤ 'Z' then Char.ofNat (c.toNat + 32) else c

/-- Python `s.lower()`. -/
def pyLower (s : String) : String := String.mk (s.toList.map lowerChar)

/-- Whitespace as stripped by Python `str.strip()` (ASCII range). -/
def isPySpace (c : Char) : Bool :=
  c = ' ' || c = '\t' || c = '\n' || c = '\r' || c = '\x0b' || c = '\x0c'

/-- Python `s.strip()`. -/
def pyStrip (s : String) : String :=
  String.mk (((s.toList.dropWhile isPySpace).reverse.dropWhile isPySpace).reverse)

/-- Boolean prefix test on lists. -/
def listPrefixOf [DecidableEq α] : List α → List α → Bool
  | [], _ => true
  | _ :: _, [] => false
  | a :: as, b :: bs => a = b && listPrefixOf as bs

/-- Boolean contiguous-sublist test on lists. -/
def listInfixOf [DecidableEq α] (needle : List α) : List α → Bool
  | [] => needle.isEmpty
  | b :: bs => listPrefixOf needle (b :: bs) || listInfixOf needle bs

/-- Python `needle in haystack` substring test. -/
def pyIn (needle haystack : String) : Bool :=
  listInfixOf needle.toList haystack.toList

/-- The curated top-venue set of `_journal_weight`
(`src/retrieval/search.py` lines 37-47). -/
def highJournals : List String :=
  ["经济研究", "管理世界", "journal of finance", "journal of political economy",
   "american economic review"]

/-- Embeds `_journal_weight`: 0 for a falsy journal string, 0.9 when a curated
top venue occurs as a substring of the stripped lowercased name, 0.5 for a
generic journal marker, else 0.2. -/
def journalWeight (journal : String) : ℚ :=
  if journal = "" then 0
  else
    let j := pyLower (pyStrip journal)
    if highJournals.any (fun h => pyIn h j) then 9/10
    else if pyIn "学报" j || pyIn "journal" j || pyIn "review" j then 1/2
    else 1/5

/-- Embeds `_user_pref_score` (`src/retrieval/search.py` lines 50-55):
`min(1.0, hits / max(1, len(pref_terms)) * 0.5 + 0.5)` where `hits` counts
preference terms occurring (lowercased) in the lowercased text. -/
def userPrefScore (text : String) (prefTerms : List String) : ℚ :=
  if prefTerms = [] ∨ text = "" then 0
  else
    let t := pyLower text
    let hits : ℚ := ((prefTerms.filter (fun p => pyIn (pyLower p) t)).length : ℚ)
    min 1 (hits / (max 1 (prefTerms.length : ℚ)) * (1/2) + 1/2)

/-- Whether a Python `list[str] | None` value is truthy. -/
def truthyTerms : Option (List String) → Bool
  | none => false
  | some ts => !ts.isEmpty

/-- Embeds `_title_match_bonus` (`src/retrieval/search.py` lines 22-34).
NOTE (faithful to the source): when `title` is truthy and `topic_terms` is a
truthy (non-empty) list, the guard expression
`(topic_terms or raw_query or "").strip()` evaluates `.strip()` on a `list`
and raises `AttributeError`; that uncaught exception is modelled as `none`.
Consequently the `if topic_terms: for t in topic_terms: ...` loop of the
source is unreachable (when it is reached, `topic_terms` is falsy), so it
does not appear below. -/
def titleMatchBonus (title : String) (topicTerms : Option (List String))
    (rawQuery : String) : Option ℚ :=
  if title = "" then some 0
  else if truthyTerms topicTerms then none
  else if pyStrip rawQuery = "" then some 0
  else
    let titleLower := pyLower (pyStrip title)
    let q := pyStrip rawQuery
    if q ≠ "" ∧ pyIn (pyLower q) titleLower then some 1 else some 0

/-- One entry of the `id_scores` dict of `hybrid_search`: a candidate
`paper_id` with its optional raw BM25 and vector signals. The surrounding
list is insertion-ordered, like a Python dict. -/
structure IdEntry where
  pid : String
  bm25 : Option ℚ
  vec : Option ℚ
deriving DecidableEq

/-- Record one BM25 hit into the insertion-ordered `id_scores` list:
`id_scores[pid]["bm25"] = score` (a later hit for the same id overwrites the
signal but keeps the entry's position, as for a Python dict). -/
def upsertBm : List IdEntry → String → ℚ → List IdEntry
  | [], pid, s => [⟨pid, some s, none⟩]
  | e :: rest, pid, s =>
    if e.pid = pid then { e with bm25 := some s } :: rest
    else e :: upsertBm rest pid s

/-- Record one vector hit into the `id_scores` list:
`id_scores[pid]["vec"] = score`. -/
def upsertVec : List IdEntry → String → ℚ → List IdEntry
  | [], pid, s => [⟨pid, none, some s⟩]
  | e :: rest, pid, s =>
    if e.pid = pid then { e with vec := some s } :: rest
    else e :: upsertVec rest pid s

/-- Python `max(s for _, s in hits)` over a non-empty hit list (the `[]` case
is never reached: the source guards with `if bm25_hits:` / `if vec_hits:`). -/
def maxScore : List (String × ℚ) → ℚ
  | [] => 0
  | h :: t => t.foldl (fun m x => max m x.2) h.2

/-- The normalization denominator for one signal: `1.0` when the hit list is
empty (the default), else `max(...) or 1.0` (a maximum of exactly 0 is
replaced by 1 to avoid division by zero). -/
def normDenom (hits : List (String × ℚ)) : ℚ :=
  match hits with
  | [] => 1
  | _ => if maxScore hits = 0 then 1 else maxScore hits

/-- Parameters of one `hybrid_search` call
(`src/retrieval/search.py` lines 58-72). `userPrefTerms` is already
defaulted (`pref = user_pref_terms or []`). -/
structure FusionParams where
  q : String
  startYear : Option Int
  endYear : Option Int
  source : Option String
  limit : Nat
  offset : Nat
  w1 : ℚ
  w2 : ℚ
  w3 : ℚ
  w4 : ℚ
  titleBonus : ℚ
  userPrefTerms : List String
  topicTerms : Option (List String)

/-- The external collaborators consumed by `hybrid_search`: backend
availability flags (`index_exists()`, `index_ready()`), the two search
backends at their call signatures, the metadata store
(`fetch_papers_by_ids`, modelled as a total lookup: the fetch restricted to
the candidate ids is observationally the full store on every id the ranker
looks up), and the SQLite fallback `search_sqlite` returning
`(results, total)`. -/
structure SearchEnv where
  useEs : Bool
  useVec : Bool
  bm25Search : String → Option Int → Option Int → Option String → Nat →
    List (String × ℚ)
  vectorSearch : String → Nat → List (String × ℚ)
  store : String → Option PaperMeta
  sqlite : String → Option Int → Option Int → Option String → Nat → Nat →
    List PaperMeta × Nat

/-- The BM25 hit list of one call: `bm25_search(q, start_year, end_year,
source, size=limit * 2)` when `use_es`, else no hits. -/
def bmHits (env : SearchEnv) (p : FusionParams) : List (String × ℚ) :=
  if env.useEs then env.bm25Search p.q p.startYear p.endYear p.source (p.limit * 2)
  else []

/-- The vector hit list of one call: `vector_search(q, top_k=limit * 2)` when
`use_vec and q and q.strip()`, else no hits. -/
def vecHits (env : SearchEnv) (p : FusionParams) : List (String × ℚ) :=
  if env.useVec && pyStrip p.q ≠ "" then env.vectorSearch p.q (p.limit * 2)
  else []

/-- The `id_scores` dict after both backend loops: BM25 hits first, then
vector hits, each upserted in order. -/
def idScoresOf (env : SearchEnv) (p : FusionParams) : List IdEntry :=
  (vecHits env p).foldl (fun acc h => upsertVec acc h.1 h.2)
    ((bmHits env p).foldl (fun acc h => upsertBm acc h.1 h.2) [])

/-- The `year` value used by the filter: `md.get("year")` of the fetched row,
`None` when the candidate id is absent from the store (`md = {}`). -/
def yearOf (md : Option PaperMeta) : YearField :=
  match md with
  | none => .missing
  | some m => m.year

/-- Mirrors `md.get("source") or ""`. -/
def sourceOf (md : Option PaperMeta) : String :=
  match md with | none => "" | some m => m.source

/-- Mirrors `md.get("title", "") or ""`. -/
def titleOf (md : Option PaperMeta) : String :=
  match md with | none => "" | some m => m.title

/-- Mirrors `md.get("journal", "")`. -/
def journalOf (md : Option PaperMeta) : String :=
  match md with | none => "" | some m => m.journal

/-- Mirrors `md.get("abstract", "") or ""`. -/
def abstractOf (md : Option PaperMeta) : String :=
  match md with | none => "" | some m => m.abstract

/-- The `start_year` hard filter of `hybrid_search` (lines 104-110): with an
active bound it computes `y = int(md.get("year") or 0)` — a missing year
becomes `0` — and drops the candidate when `y < start_year`; `int()` raising
on a malformed year also drops the candidate. Returns `true` when the
candidate survives. -/
def passYearStart (sy : Option Int) (yf : YearField) : Bool :=
  match sy with
  | none => true
  | some s =>
    match yf with
    | .missing => decide (¬ ((0 : Int) < s))
    | .val y => decide (¬ (y < s))
    | .malformed => false

/-- The `end_year` hard filter (lines 111-117): `y = int(md.get("year") or 0)`
and drop when `y > end_year`; a malformed year drops the candidate. -/
def passYearEnd (ey : Option Int) (yf : YearField) : Bool :=
  match ey with
  | none => true
  | some e =>
    match yf with
    | .missing => decide (¬ (e < (0 : Int)))
    | .val y => decide (¬ (e < y))
    | .malformed => false

/-- The source hard filter (line 118):
`if source and (md.get("source") or "") != source: continue`. -/
def passSource (src : Option String) (md : Option PaperMeta) : Bool :=
  match src with
  | none => true
  | some s => if s = "" then true else decide (sourceOf md = s)

/-- The fused score of one surviving candidate (lines 120-125):
`w1*bm + w2*vc + w3*jw + w4*up + title_bonus*tb`, `none` when the
title-bonus computation raises. -/
def fusedScoreOf (store : String → Option PaperMeta) (p : FusionParams)
    (maxBm maxVec : ℚ) (e : IdEntry) : Option ℚ :=
  let md := store e.pid
  let bm := e.bm25.getD 0 / maxBm
  let vc := e.vec.getD 0 / maxVec
  let jw := journalWeight (journalOf md)
  let up := userPrefScore (titleOf md ++ " " ++ abstractOf md) p.userPrefTerms
  match titleMatchBonus (titleOf md) p.topicTerms p.q with
  | none => none
  | some tb => some (p.w1 * bm + p.w2 * vc + p.w3 * jw + p.w4 * up + p.titleBonus * tb)

/-- The candidate loop of `hybrid_search` (lines 101-126): walk `id_scores`
in insertion order, drop candidates failing the year/source hard filters,
score the rest; `none` when any scored candidate's title bonus raises. -/
def combineEntries (store : String → Option PaperMeta) (p : FusionParams)
    (maxBm maxVec : ℚ) : List IdEntry → Option (List (String × ℚ))
  | [] => some []
  | e :: rest =>
    let md := store e.pid
    if passYearStart p.startYear (yearOf md) && passYearEnd p.endYear (yearOf md)
        && passSource p.source md then
      match fusedScoreOf store p maxBm maxVec e with
      | none => none
      | some sc =>
        match combineEntries store p maxBm maxVec rest with
        | none => none
        | some l => some ((e.pid, sc) :: l)
    else combineEntries store p maxBm maxVec rest

/-- The `combined` list of one call (before sorting). -/
def combinedOf (env : SearchEnv) (p : FusionParams) : Option (List (String × ℚ)) :=
  combineEntries env.store p (normDenom (bmHits env p)) (normDenom (vecHits env p))
    (idScoresOf env p)

/-- The comparator of `combined.sort(key=lambda x: x[1], reverse=True)`:
descending by score; the sort is stable, so candidates with equal scores keep
their `id_scores` insertion order. -/
def scoreGe (x y : String × ℚ) : Bool := decide (y.2 ≤ x.2)

/-- The sorted `combined` list. -/
def sortedOf (env : SearchEnv) (p : FusionParams) : Option (List (String × ℚ)) :=
  (combinedOf env p).map (fun c => c.mergeSort scoreGe)

/-- The page window `combined[offset : offset + limit]` mapped to ids
(line 128). -/
def pageWindow (c : List (String × ℚ)) (off lim : Nat) : List String :=
  ((c.drop off).take lim).map Prod.fst

/-- Mirrors `next((s for i, s in combined if i == pid), 0.0)` over the sorted
`combined` list (line 134). -/
def lookupScore (c : List (String × ℚ)) (pid : String) : ℚ :=
  match c.find? (fun x => x.1 == pid) with
  | some x => x.2
  | none => 0

/-- One returned result row: the metadata dict plus, on the fused path, the
attached `score` key (the SQLite fallback rows carry no `score` key, hence
the `Option`). -/
structure ResultRow where
  meta : PaperMeta
  score : Option ℚ
deriving DecidableEq

/-- The result-building loop (lines 129-135): walk the page window and skip
any id absent from the fetched metadata (`if pid not in meta: continue`);
since the fetch was keyed by all candidate ids, membership in the fetched map
is exactly presence in the store. -/
def resultsFromPage (store : String → Option PaperMeta)
    (c : List (String × ℚ)) (off lim : Nat) : List ResultRow :=
  (pageWindow c off lim).filterMap fun pid =>
    match store pid with
    | none => none
    | some m => some ⟨m, some (lookupScore c pid)⟩

/-- Embeds `hybrid_search` (`src/retrieval/search.py` lines 58-137): on the
fused path (a backend available and a non-empty candidate union) return the
paged, sorted, fused results with `total = len(combined)`; otherwise fall
back to `search_sqlite`. `none` models an uncaught `AttributeError` from
`_title_match_bonus`. -/
def hybridSearch (env : SearchEnv) (p : FusionParams) :
    Option (List ResultRow × Nat) :=
  if (env.useEs || env.useVec) && !(idScoresOf env p).isEmpty then
    match sortedOf env p with
    | none => none
    | some c => some (resultsFromPage env.store c p.offset p.limit, c.length)
  else
    let (rows, total) := env.sqlite p.q p.startYear p.endYear p.source p.limit p.offset
    some (rows.map (fun m => ⟨m, none⟩), total)


/-! ## Query understanding (`src/retrieval/query_understanding.py`) -/

/-- ASCII Latin letter (the `[a-zA-Z]` class of the tokenizer). -/
def isLatinLetter (c : Char) : Bool :=
  ('a' ≤ c && c ≤ 'z') || ('A' ≤ c && c ≤ 'Z')

/-- CJK ideograph (the `[一-鿿]` class). -/
def isCJK (c : Char) : Bool :=
  0x4e00 ≤ c.toNat && c.toNat ≤ 0x9fff

/-- ASCII digit. -/
def isDigitCh (c : Char) : Bool := '0' ≤ c && c ≤ '9'

/-- Python regex word character (`\w`) on the ranges occurring in queries and
in the fixed marker words: ASCII alphanumerics, underscore, CJK. -/
def isWordChar (c : Char) : Bool :=
  isLatinLetter c || isDigitCh c || c = '_' || isCJK c

/-- Whether the list starts with a year of the regex shape `(?:19|20)\d{2}`. -/
def isYearStart : List Char → Bool
  | '1' :: '9' :: a :: b :: _ => isDigitCh a && isDigitCh b
  | '2' :: '0' :: a :: b :: _ => isDigitCh a && isDigitCh b
  | _ => false

/-- Numeric value of an ASCII digit. -/
def digitVal (c : Char) : Int := (c.toNat : Int) - 48

/-- Value of a four-digit year. -/
def yearNum (c0 c1 c2 c3 : Char) : Int :=
  digitVal c0 * 1000 + digitVal c1 * 100 + digitVal c2 * 10 + digitVal c3

/-- Embeds `re.findall(r"19\d{2}|20\d{2}", s)` (with the values converted by
`int`): scan left to right, non-overlapping matches. -/
def findYears : List Char → List Int
  | c0 :: c1 :: c2 :: c3 :: t =>
    if isYearStart (c0 :: c1 :: c2 :: c3 :: t) then
      yearNum c0 c1 c2 c3 :: findYears t
    else findYears (c1 :: c2 :: c3 :: t)
  | _ :: t => findYears t
  | [] => []

/-- The `[-–至到]` separator class of the year-range pattern. -/
def dashChars : List Char := ['-', '–', '至', '到']

/-- Match `(?:19|20)\d{2}\s*[-–至到]\s*(?:19|20)\d{2}` at the head of the
list, returning the match length. -/
def matchRange (cs : List Char) : Option Nat :=
  if isYearStart cs then
    let rest1 := cs.drop 4
    let k1 := (rest1.takeWhile isPySpace).length
    match rest1.drop k1 with
    | d :: rest2 =>
      if dashChars.contains d then
        let k2 := (rest2.takeWhile isPySpace).length
        if isYearStart (rest2.drop k2) then some (4 + k1 + 1 + k2 + 4) else none
      else none
    | [] => none
  else none

/-- Match `(?:19|20)\d{2}\s*年\s*(?:至今|以后)` at the head of the list. -/
def matchStartCn (cs : List Char) : Option Nat :=
  if isYearStart cs then
    let rest1 := cs.drop 4
    let k1 := (rest1.takeWhile isPySpace).length
    match rest1.drop k1 with
    | '年' :: rest2 =>
      let k2 := (rest2.takeWhile isPySpace).length
      match rest2.drop k2 with
      | a :: b :: _ =>
        if (a = '至' ∧ b = '今') ∨ (a = '以' ∧ b = '后') then
          some (4 + k1 + 1 + k2 + 2)
        else none
      | _ => none
    | _ => none
  else none

/-- Case-insensitive literal prefix match (the patterns carry `re.I`). -/
def litMatch (lit : List Char) (cs : List Char) : Bool :=
  (cs.take lit.length).map lowerChar = lit

/-- Match `(?:lit1|lit2|...)\s*(?:19|20)\d{2}` at the head of the list,
trying the alternatives in pattern order (regex alternation backtracks to the
next alternative when the year part fails). -/
def matchPrefixYear (lits : List (List Char)) (cs : List Char) : Option Nat :=
  lits.findSome? fun l =>
    if litMatch l cs then
      let rest := cs.drop l.length
      let k := (rest.takeWhile isPySpace).length
      if isYearStart (rest.drop k) then some (l.length + k + 4) else none
    else none

/-- Match `(?:after|since|从)\s*(?:19|20)\d{2}` at the head of the list. -/
def matchStartEn (cs : List Char) : Option Nat :=
  matchPrefixYear ["after".toList, "since".toList, ['从']] cs

/-- Match `(?:before|之前)\s*(?:19|20)\d{2}` at the head of the list. -/
def matchBefore (cs : List Char) : Option Nat :=
  matchPrefixYear ["before".toList, ['之', '前']] cs

/-- Match `(?:19|20)\d{2}\s*年?(?:以前|之前)` at the head of the list (the
optional `年` is greedy; when it is consumed the suffix must follow it, and
when the next character is `年` the pattern cannot match without it). -/
def matchEndCn (cs : List Char) : Option Nat :=
  if isYearStart cs then
    let rest1 := cs.drop 4
    let k := (rest1.takeWhile isPySpace).length
    match rest1.drop k with
    | '年' :: a :: b :: _ =>
      if (a = '以' ∧ b = '前') ∨ (a = '之' ∧ b = '前') then some (4 + k + 1 + 2)
      else none
    | a :: b :: _ =>
      if (a = '以' ∧ b = '前') ∨ (a = '之' ∧ b = '前') then some (4 + k + 2)
      else none
    | _ => none
  else none

/-- Embeds `re.search`: try the head matcher at each position left to right;
return `(start, length)` of the leftmost match. -/
def searchPatAux (f : List Char → Option Nat) (i : Nat) : List Char → Option (Nat × Nat)
  | [] =>
    match f [] with
    | some n => some (i, n)
    | none => none
  | c :: t =>
    match f (c :: t) with
    | some n => some (i, n)
    | none => searchPatAux f (i + 1) t

/-- Embeds `remaining[:m.start()] + " " + remaining[m.end():]`. -/
def removeSpan (cs : List Char) (start len : Nat) : List Char :=
  cs.take start ++ [' '] ++ cs.drop (start + len)

/-- Python `min` over a non-empty int list. -/
def minList : List Int → Int
  | [] => 0
  | x :: t => t.foldl min x

/-- Python `max` over a non-empty int list. -/
def maxList : List Int → Int
  | [] => 0
  | x :: t => t.foldl max x

/-- Which bound(s) a year pattern updates (the `kind` tags of
`year_patterns`). -/
inductive YearPatKind
  | range
  | startK
  | endK

/-- State of the year-pattern loop of `parse_query`. -/
structure YearScan where
  startYear : Option Int
  endYear : Option Int
  remaining : List Char

/-- One iteration of the year-pattern loop (`parse_query` lines 39-50): search
the pattern in the remaining text; on a match, extract the year numbers,
update the bound for the pattern's kind, and splice the matched span out of
the text. -/
def applyYearPat (kind : YearPatKind) (f : List Char → Option Nat)
    (st : YearScan) : YearScan :=
  match searchPatAux f 0 st.remaining with
  | none => st
  | some (i, n) =>
    let nums := findYears ((st.remaining.drop i).take n)
    let st1 := { st with remaining := removeSpan st.remaining i n }
    match kind with
    | .range =>
      if nums.length ≥ 2 then
        { st1 with startYear := some (minList nums), endYear := some (maxList nums) }
      else st1
    | .startK =>
      if !nums.isEmpty then { st1 with startYear := some (maxList nums) } else st1
    | .endK =>
      if !nums.isEmpty then { st1 with endYear := some (minList nums) } else st1

/-- The year-pattern loop over the five patterns, in source order. -/
def yearScanOf (raw : List Char) : YearScan :=
  applyYearPat .endK matchEndCn
    (applyYearPat .endK matchBefore
      (applyYearPat .startK matchStartEn
        (applyYearPat .startK matchStartCn
          (applyYearPat .range matchRange ⟨none, none, raw⟩))))

/-- The Chinese-language marker alternatives `\b(中文|汉语|china|chinese)\b`. -/
def zhMarkers : List (List Char) :=
  [['中', '文'], ['汉', '语'], "china".toList, "chinese".toList]

/-- The English-language marker alternatives `\b(英文|英语|english)\b`. -/
def enMarkers : List (List Char) :=
  [['英', '文'], ['英', '语'], "english".toList]

/-- A `\b` word boundary holds before the current position, given the
preceding character (`none` at the start of the string). All marker words
start and end with word characters, so the boundary reduces to the
neighbouring character not being a word character. -/
def boundaryOk : Option Char → Bool
  | none => true
  | some c => !isWordChar c

/-- Match one `\b(...)\b` marker alternative at the head of the list
(case-insensitive, alternatives in pattern order), given the preceding
original character. -/
def matchMarker (lits : List (List Char)) (prev : Option Char)
    (cs : List Char) : Option Nat :=
  if boundaryOk prev then
    lits.findSome? fun l =>
      if litMatch l cs then
        match cs.drop l.length with
        | [] => some l.length
        | d :: _ => if isWordChar d then none else some l.length
      else none
  else none

/-- Embeds `re.search` for a marker pattern: does any position match? -/
def hasMarker (lits : List (List Char)) : Option Char → List Char → Bool
  | prev, [] => (matchMarker lits prev []).isSome
  | prev, c :: t =>
    (matchMarker lits prev (c :: t)).isSome || hasMarker lits (some c) t

/-- Embeds `re.sub(pattern, " ", text)`: replace every non-overlapping
marker match by a single space, scanning left to right (the first argument
counts characters of a current match still to be skipped). -/
def subMarkersAux (lits : List (List Char)) : Nat → Option Char → List Char → List Char
  | _, _, [] => []
  | Nat.succ k, _, c :: t => subMarkersAux lits k (some c) t
  | 0, prev, c :: t =>
    match matchMarker lits prev (c :: t) with
    | some n => ' ' :: subMarkersAux lits (n - 1) (some c) t
    | none => c :: subMarkersAux lits 0 (some c) t

/-- The language step of `parse_query` (lines 53-58): detect a marker, set
the language tag, blank out every marker occurrence. -/
def postLangText (raw : List Char) : Option String × List Char :=
  let rem := (yearScanOf raw).remaining
  if hasMarker zhMarkers none rem then (some "zh", subMarkersAux zhMarkers 0 none rem)
  else if hasMarker enMarkers none rem then (some "en", subMarkersAux enMarkers 0 none rem)
  else (none, rem)

/-- Embeds `re.findall(r"[a-zA-Z]{2,}|[一-鿿]+", s)`: maximal Latin
runs of length at least two, maximal CJK runs, scanning left to right. -/
def tokenize : List Char → List String
  | [] => []
  | c :: t =>
    if isLatinLetter c then
      if (t.takeWhile isLatinLetter).isEmpty then tokenize t
      else
        String.mk (c :: t.takeWhile isLatinLetter) :: tokenize (t.dropWhile isLatinLetter)
    else if isCJK c then
      String.mk (c :: t.takeWhile isCJK) :: tokenize (t.dropWhile isCJK)
    else tokenize t
termination_by cs => cs.length
decreasing_by
  all_goals simp only [List.length_cons]
  all_goals first
    | exact Nat.lt_succ_of_le (List.dropWhile_sublist _).length_le
    | exact Nat.lt_succ_self _

/-- The stop-word set of `parse_query` (line 61). -/
def stopWords : List String :=
  ["的", "与", "和", "及", "等", "之", "在", "是", "有", "为", "对", "从", "到",
   "关于", "研究", "分析", "the", "and", "for", "with", "from", "about"]

/-- The topic terms obtained from tokenization and stop-word filtering
(before the whole-query fallback). -/
def tokenTerms (raw : List Char) : List String :=
  (tokenize (postLangText raw).2).filter (fun t => t ≠ "" && !stopWords.contains t)

/-- The result record of `parse_query` (`ParsedQuery` dataclass). -/
structure ParsedQuery where
  topicTerms : List String
  startYear : Option Int
  endYear : Option Int
  language : Option String
  journalLevel : Option String
  rawQuery : String
deriving DecidableEq

/-- Embeds `parse_query` (`src/retrieval/query_understanding.py` lines
19-74): strip, run the five year patterns (each removing its matched span),
detect and remove a language marker, tokenize and filter stop words, and
fall back to the whole stripped query capped at 50 characters when no topic
term survives. -/
def parseQuery (raw0 : String) : ParsedQuery :=
  let raw := pyStrip raw0
  let sc := yearScanOf raw.toList
  let lang := (postLangText raw.toList).1
  let terms0 := tokenTerms raw.toList
  let terms :=
    if terms0.isEmpty && pyStrip raw ≠ "" then [String.mk (raw.toList.take 50)]
    else terms0
  ⟨terms, sc.startYear, sc.endYear, lang, none, raw⟩

unseal tokenize


/-! ## Distributions (`search_with_distributions`, `src/retrieval/search.py`
lines 140-193) -/

/-- Default fusion weights (`src/retrieval/search.py` lines 14-19). -/
def DEFAULT_W1 : ℚ := 45/100

/-- Default vector weight. -/
def DEFAULT_W2 : ℚ := 25/100

/-- Default journal weight coefficient. -/
def DEFAULT_W3 : ℚ := 1/10

/-- Default user-preference weight. -/
def DEFAULT_W4 : ℚ := 1/10

/-- Default title bonus. -/
def DEFAULT_TITLE_BONUS : ℚ := 1/5

/-- A `paper_features` row as returned by `fetch_features`
(`src/retrieval/db.py` lines 157-173), with the `or ""` defaults applied. -/
structure FeatRow where
  topicId : String
  attitudeLabel : String
  methodsLabel : String
deriving DecidableEq

/-- Increment a key of an insertion-ordered counter (`Counter[k] += 1`). -/
def bump [DecidableEq α] : List (α × Nat) → α → List (α × Nat)
  | [], k => [(k, 1)]
  | (a, n) :: rest, k =>
    if a = k then (a, n + 1) :: rest else (a, n) :: bump rest k

/-- Add `n` to a key of an insertion-ordered counter (`Counter.update`). -/
def addCount [DecidableEq α] : List (α × Nat) → α → Nat → List (α × Nat)
  | [], k, n => [(k, n)]
  | (a, m) :: rest, k, n =>
    if a = k then (a, m + n) :: rest else (a, m) :: addCount rest k n

/-- Look a key up in a counter, defaulting to 0 (`Counter[k]` read access). -/
def countOf [DecidableEq α] (m : List (α × Nat)) (k : α) : Nat :=
  match m.find? (fun x => x.1 = k) with
  | some x => x.2
  | none => 0

/-- Embeds `Counter.most_common(k)`: stable descending sort by count (ties
keep insertion order, as in CPython), truncated to `k` entries. -/
def mostCommon [DecidableEq α] (m : List (α × Nat)) (k : Nat) : List (α × Nat) :=
  (m.mergeSort (fun x y => decide (y.2 ≤ x.2))).take k

/-- Embeds `sorted(year_cnt.items())`: ascending by year (years are unique
keys, so comparing the first component suffices). -/
def sortYears (m : List (Int × Nat)) : List (Int × Nat) :=
  m.mergeSort (fun x y => decide (x.1 ≤ y.1))

/-- The year counter loop of `search_with_distributions` (lines 175-181):
skip a missing year, count `int(y)`, silently skip a year `int()` rejects. -/
def yearCounter (rs : List ResultRow) : List (Int × Nat) :=
  rs.foldl
    (fun m r =>
      match r.meta.year with
      | .val y => bump m y
      | _ => m)
    []

/-- The topic counter loop (lines 182-185): `tid = f.get("topic_id") or ""`,
count non-empty topic ids. -/
def topicCounter (features : String → Option FeatRow) (rs : List ResultRow) :
    List (String × Nat) :=
  rs.foldl
    (fun m r =>
      let tid := match features r.meta.paperId with
        | some f => f.topicId
        | none => ""
      if tid ≠ "" then bump m tid else m)
    []

/-- Parameters of one `search_with_distributions` call. -/
structure DistParams where
  q : String
  startYear : Option Int
  endYear : Option Int
  source : Option String
  limit : Nat
  offset : Nat
  useQueryUnderstanding : Bool

/-- The output dict of `search_with_distributions`. -/
structure DistOutput where
  results : List ResultRow
  total : Nat
  topicDistribution : List (String × Nat)
  yearDistribution : List (Int × Nat)
deriving DecidableEq

/-- The `FusionParams` handed to `hybrid_search` by
`search_with_distributions` (lines 154-168): optionally run query
understanding (parsed year bounds fill in only missing bounds; topic terms
override the query string), always with the default weights, no preference
terms, and a non-`None` `topic_terms` exactly when there is a non-blank
query (or parsing succeeded). -/
def distFusionParams (dp : DistParams) : FusionParams :=
  if dp.useQueryUnderstanding && pyStrip dp.q ≠ "" then
    let pq := parseQuery dp.q
    let sy := match pq.startYear with
      | none => dp.startYear
      | some v => if dp.startYear ≠ none then dp.startYear else some v
    let ey := match pq.endYear with
      | none => dp.endYear
      | some v => if dp.endYear ≠ none then dp.endYear else some v
    let topicStr :=
      if !pq.topicTerms.isEmpty then String.intercalate " " pq.topicTerms else dp.q
    let tts := if !pq.topicTerms.isEmpty then pq.topicTerms else [pyStrip dp.q]
    ⟨topicStr, sy, ey, dp.source, dp.limit, dp.offset, DEFAULT_W1, DEFAULT_W2,
      DEFAULT_W3, DEFAULT_W4, DEFAULT_TITLE_BONUS, [], some tts⟩
  else
    ⟨dp.q, dp.startYear, dp.endYear, dp.source, dp.limit, dp.offset, DEFAULT_W1,
      DEFAULT_W2, DEFAULT_W3, DEFAULT_W4, DEFAULT_TITLE_BONUS, [],
      if pyStrip dp.q ≠ "" then some [pyStrip dp.q] else none⟩

/-- Embeds `search_with_distributions` (lines 140-193): run `hybrid_search`;
on an empty result page return the all-empty dict (total 0), else attach the
topic distribution (capped at 20) and the ascending year distribution, both
computed over the returned page. `none` models an uncaught exception from
the ranker. -/
def searchWithDistributions (env : SearchEnv) (features : String → Option FeatRow)
    (dp : DistParams) : Option DistOutput :=
  match hybridSearch env (distFusionParams dp) with
  | none => none
  | some (results, total) =>
    if results.isEmpty then some ⟨[], 0, [], []⟩
    else
      some ⟨results, total, mostCommon (topicCounter features results) 20,
        sortYears (yearCounter results)⟩

/-! ## Collection analytics (`src/analysis/service.py`)

The analyzers receive duck-typed paper dicts. The nested `features` dict is
shared by reference between the caller and the analyzer (`dict(p)` is a
shallow copy), so feature dicts live in an explicit heap: a paper carries
either no `features` key (or a `None` value, which the code treats the same
way) or a reference into the heap. All other fields have value semantics in
the source (they are only ever rebound on the shallow copy, never mutated in
place). -/

/-- A Python dict with string keys and values, insertion-ordered. -/
abbrev FeatDict := List (String × String)

/-- The heap of `features` dict objects; addresses are list indices. -/
abbrev Heap := List FeatDict

/-- The `features` entry of a paper dict: key absent (or value `None`), or a
reference to a shared dict object. -/
inductive FeatRef
  | absent
  | ref (a : Nat)
deriving DecidableEq

/-- Python `d.get(k)` on a features dict. -/
def dGet (d : FeatDict) (k : String) : Option String :=
  (d.find? (fun x => x.1 = k)).map Prod.snd

/-- Python `d[k] = v`: overwrite in place, or append a new key. -/
def dSet : FeatDict → String → String → FeatDict
  | [], k, v => [(k, v)]
  | (a, b) :: rest, k, v =>
    if a = k then (a, v) :: rest else (a, b) :: dSet rest k v

/-- Read a heap cell (addresses handed out by the model are always valid). -/
def heapGet (h : Heap) (a : Nat) : FeatDict := h.getD a []

/-- Overwrite a heap cell. -/
def heapSet (h : Heap) (a : Nat) (d : FeatDict) : Heap := h.set a d

/-- A paper dict as consumed by `CollectionAnalyzer`. Falsy string fields
(`""`) model absent/empty values, `keywords = []` models a missing or empty
list, `vector = none` models a missing key or `None` (the code treats them
identically), and `features` is a heap reference. -/
structure APaper where
  paperId : String
  idField : String
  title : String
  abstract : String
  year : YearField
  keywords : List String
  vector : Option (List ℚ)
  features : FeatRef
  attitudeLabel : String
  methodsLabel : String
deriving DecidableEq

/-- The externally provided single-paper models used by `_enrich_papers`
(KeyBERT keyword extraction, sentence-transformer embedding, zero-shot
attitude classification): I/O collaborators, modelled as function
parameters. -/
structure ProcFns where
  extractKeywords : String → List String
  getEmbedding : String → Option (List ℚ)
  classifyAttitude : String → String

/-- Enrich one paper (`_enrich_papers` loop body, `src/analysis/service.py`
lines 166-189): skip papers without an id; fill missing keywords, vector and
features on a shallow copy; when a non-empty features dict is already
present, overwrite its `attitude` and `methods_label` entries in place (the
dict object is shared with the caller). Returns the enriched copy (or
`none` for a skipped paper) and the updated heap. -/
def enrichOne (proc : ProcFns) (p : APaper) (h : Heap) : Option APaper × Heap :=
  let pid := if p.paperId ≠ "" then p.paperId else p.idField
  if pid = "" then (none, h)
  else
    let full := p.title ++ ". " ++ p.abstract
    -- the keyword/vector fills rebind fields on the shallow copy and never
    -- touch the `features` reference, so the later reads of
    -- `p["features"]` / `p.get("attitude_label")` etc. see `p`'s own values
    let kws := if p.keywords.isEmpty then proc.extractKeywords full else p.keywords
    let vec := if p.vector = none then proc.getEmbedding full else p.vector
    let mkFresh : Option APaper × Heap :=
      let att :=
        if p.attitudeLabel ≠ "" then p.attitudeLabel
        else proc.classifyAttitude (if p.abstract ≠ "" then p.abstract else p.title)
      (some { p with
          keywords := kws
          vector := vec
          features := FeatRef.ref h.length
          idField := pid },
        h ++ [[("attitude", att), ("methods_label", p.methodsLabel)]])
    match p.features with
    | .absent => mkFresh
    | .ref a =>
      if (heapGet h a).isEmpty then mkFresh
      else
        let d := heapGet h a
        let attNew :=
          if p.attitudeLabel ≠ "" then p.attitudeLabel
          else
            match dGet d "attitude" with
            | some v => if v ≠ "" then v else "谨慎中性"
            | none => "谨慎中性"
        let d1 := dSet d "attitude" attNew
        let methNew :=
          if p.methodsLabel ≠ "" then p.methodsLabel
          else (dGet d1 "methods_label").getD ""
        let d2 := dSet d1 "methods_label" methNew
        (some { p with
            keywords := kws
            vector := vec
            idField := pid },
          heapSet h a d2)

/-- Embeds `_enrich_papers` (lines 163-190): enrich each paper in order,
dropping papers without an id, threading the features heap. -/
def enrichPapers (proc : ProcFns) : List APaper → Heap → List APaper × Heap
  | [], h => ([], h)
  | p :: rest, h =>
    match enrichOne proc p h with
    | (none, h1) => enrichPapers proc rest h1
    | (some p1, h1) =>
      let (out, h2) := enrichPapers proc rest h1
      (p1 :: out, h2)

/-- A cluster summary dict (`perform_clustering` lines 226-231). -/
structure ClusterSummary where
  clusterId : Nat
  topicName : String
  count : Nat
  paperIds : List String
deriving DecidableEq

/-- The external ML collaborators of `perform_clustering`:
`_try_import_ml()` availability and `KMeans(n_clusters=n, random_state=42,
n_init=10).fit_predict(X)`, which returns one label per input vector. -/
structure ClusterEnv where
  mlAvailable : Bool
  fitPredict : Nat → List (List ℚ) → List Nat

/-- Append a paper to the entry of its label in an insertion-ordered
grouping dict (`clusters[int(label)].append(valid[i])`). -/
def groupAdd : List (Nat × List APaper) → Nat → APaper → List (Nat × List APaper)
  | [], l, p => [(l, [p])]
  | (k, ps) :: rest, l, p =>
    if k = l then (k, ps ++ [p]) :: rest else (k, ps) :: groupAdd rest l p

/-- The qualifying predicate of `perform_clustering` (lines 203-207): the
paper carries a vector that is not `None` and not empty
(`v is not None and len(v) > 0`). -/
def usableVector (p : APaper) : Bool :=
  match p.vector with
  | some v => !v.isEmpty
  | none => false

/-- Group the labelled papers (`for i, label in enumerate(labels):
clusters[int(label)].append(valid[i])`). -/
def groupByLabel (pairs : List (Nat × APaper)) : List (Nat × List APaper) :=
  pairs.foldl (fun acc x => groupAdd acc x.1 x.2) []

/-- Python `k[:m] + ("…" if len(k) > m else "")`. -/
def truncName (k : String) (m : Nat) : String :=
  if k.toList.length > m then String.mk (k.toList.take m) ++ "…" else k

/-- Summarize one cluster (lines 218-231): top-3 keyword counter, topic name
from the two most frequent keywords truncated to 8 characters, falling back
to a generic label from the cluster ordinal. -/
def summarizeCluster (label : Nat) (items : List APaper) : ClusterSummary :=
  let allKw := (items.map (fun it => it.keywords)).flatten
  let topK := mostCommon (allKw.foldl bump []) 3
  let parts := (topK.take 2).map (fun x => truncName x.1 8)
  let topicName :=
    if !parts.isEmpty then String.intercalate " / " parts
    else "主题" ++ toString label
  ⟨label, topicName, items.length,
    items.map (fun it => if it.paperId ≠ "" then it.paperId else it.idField)⟩

/-- The effective cluster count `n = min(n_clusters, len(vectors))`
(line 211). -/
def effectiveClusterCount (nClusters : Nat) (vectors : List (List ℚ)) : Nat :=
  min nClusters vectors.length

/-- Embeds `perform_clustering` (lines 192-232): enrich, return empty when no
papers or no ML stack or no usable vectors; else run KMeans with
`n = min(n_clusters, len(vectors))` on the papers carrying a non-empty
vector, group by label, sort groups by label, and summarize. No check for
`n < 2` exists in the source. -/
def performClustering (env : ClusterEnv) (proc : ProcFns) (papers0 : List APaper)
    (nClusters : Nat) (h : Heap) : List ClusterSummary × Heap :=
  let (papers, h1) := enrichPapers proc papers0 h
  if papers.isEmpty then ([], h1)
  else if !env.mlAvailable then ([], h1)
  else
    let valid := papers.filter usableVector
    let vectors := valid.filterMap (fun p => p.vector)
    if vectors.isEmpty then ([], h1)
    else
      let n := effectiveClusterCount nClusters vectors
      let labels := env.fitPredict n vectors
      let groups := groupByLabel (labels.zip valid)
      let sortedGroups := groups.mergeSort (fun x y => decide (x.1 ≤ y.1))
      (sortedGroups.map (fun g => summarizeCluster g.1 g.2), h1)

/-- A co-occurrence graph node (`build_cooccurrence_network` lines 255-263).
The display field `symbolSize = math.log(word_counts[n] + 1) * 5` is a
float-typed transcendental of `value`, used only for rendering; it is not
part of the model. -/
structure CoNode where
  id : String
  name : String
  value : Nat
deriving DecidableEq

/-- A co-occurrence graph edge. -/
structure CoLink where
  source : String
  target : String
  value : Nat
deriving DecidableEq

/-- The co-occurrence graph. -/
structure CoGraph where
  nodes : List CoNode
  links : List CoLink
deriving DecidableEq

/-- Lexicographic order on character lists by code point, mirroring Python
string comparison. -/
def listLtCh : List Char → List Char → Bool
  | [], [] => false
  | [], _ :: _ => true
  | _ :: _, [] => false
  | a :: as, b :: bs =>
    a.toNat < b.toNat || (a.toNat = b.toNat && listLtCh as bs)

/-- Python `a < b` on strings (code-point lexicographic). -/
def strLt (a b : String) : Bool := listLtCh a.toList b.toList

/-- Python `tuple(sorted([a, b]))` for two strings: the two-element sort is
stable ascending, so it swaps exactly when `b < a`. -/
def sortPair (a b : String) : String × String :=
  if strLt b a then (b, a) else (a, b)

/-- All pairs from two distinct positions `i < j` of one keyword list, each
canonicalized by `tuple(sorted([kws[i], kws[j]]))` (lines 243-246). -/
def pairsOf : List String → List (String × String)
  | [] => []
  | k :: rest => rest.map (fun k2 => sortPair k k2) ++ pairsOf rest

/-- First-seen-order deduplication; models iteration over the Python set
`valid_nodes` (CPython set iteration order is unspecified; the claims do not
depend on node order). -/
def dedupFirstSeen [DecidableEq α] (l : List α) : List α :=
  l.foldl (fun acc a => if acc.contains a then acc else acc ++ [a]) []

/-- Embeds `build_cooccurrence_network` (lines 234-268): enrich, accumulate
single-keyword counts and canonical pair counts per paper, keep pairs of
weight at least `min_weight`, build the node list over the endpoints of kept
pairs and the link list over kept pairs. -/
def buildCooccurrenceNetwork (proc : ProcFns) (papers0 : List APaper)
    (minWeight : Nat) (h : Heap) : CoGraph × Heap :=
  let (papers, h1) := enrichPapers proc papers0 h
  let wordCounts := papers.foldl (fun m p => p.keywords.foldl bump m) []
  let pairCounts := papers.foldl (fun m p => (pairsOf p.keywords).foldl bump m) []
  let kept := pairCounts.filter (fun x => minWeight ≤ x.2)
  let validNodes := dedupFirstSeen ((kept.map (fun x => [x.1.1, x.1.2])).flatten)
  let nodes := validNodes.map fun n => ⟨n, truncName n 12, countOf wordCounts n⟩
  let links := kept.map fun x => ⟨x.1.1, x.1.2, x.2⟩
  (⟨nodes, links⟩, h1)

/-- Key of the `year_kw` / `year_att` defaultdicts of `analyze_trends` and
`analyze_attitude_evolution`: on a parseable year the rebound `int(y)`, and
on a year `int()` rejects the original truthy value (all malformed values
are modelled as one key, which is observationally equivalent: the output
reads only integer keys, and the global keyword/attitude totals merge the
counters of all keys). -/
inductive YKey
  | y (v : Int)
  | bad
deriving DecidableEq

/-- The defaultdict key for one paper's year, `none` when the year is
missing (`if y is not None` guards every access). -/
def ykeyOf : YearField → Option YKey
  | .missing => none
  | .val v => some (.y v)
  | .malformed => some .bad

/-- Increment the inner counter of a nested defaultdict of counters
(`year_kw[y][kw] += 1`). -/
def bumpAt [DecidableEq κ] [DecidableEq α] :
    List (κ × List (α × Nat)) → κ → α → List (κ × List (α × Nat))
  | [], k, a => [(k, [(a, 1)])]
  | (k0, c) :: rest, k, a =>
    if k0 = k then (k0, bump c a) :: rest else (k0, c) :: bumpAt rest k a

/-- Read `nested[k].get(a, 0)` from a nested counter. -/
def countAt [DecidableEq κ] [DecidableEq α]
    (m : List (κ × List (α × Nat))) (k : κ) (a : α) : Nat :=
  match m.find? (fun x => x.1 = k) with
  | some x => countOf x.2 a
  | none => 0

/-- Add a year to the `years_set` Python set (modelled in insertion order;
only its sorted form is observable). -/
def insertSet [DecidableEq α] (s : List α) (a : α) : List α :=
  if s.contains a then s else s ++ [a]

/-- One output series (`{"name": ..., "data": [...]}`). -/
structure SeriesEntry where
  name : String
  data : List Nat
deriving DecidableEq

/-- The output of the trend and attitude-evolution analyzers. -/
structure TrendOutput where
  years : List Int
  series : List SeriesEntry
deriving DecidableEq

/-- Embeds `analyze_trends` (lines 270-296): enrich; per paper with a
non-missing year, add the parseable year to the year set and count each
keyword under the year key; select the global top-10 keywords over all
per-key counters; emit one zero-filled series per selected keyword over the
ascending year list. -/
def analyzeTrends (proc : ProcFns) (papers0 : List APaper) (h : Heap) :
    TrendOutput × Heap :=
  let (papers, h1) := enrichPapers proc papers0 h
  if papers.isEmpty then (⟨[], []⟩, h1)
  else
    let step := fun (acc : List (YKey × List (String × Nat)) × List Int) (p : APaper) =>
      let (ykw, ys) := acc
      let ys := match p.year with
        | .val v => insertSet ys v
        | _ => ys
      match ykeyOf p.year with
      | none => (ykw, ys)
      | some k => (p.keywords.foldl (fun m kw => bumpAt m k kw) ykw, ys)
    let (yearKw, yearsSet) := papers.foldl step ([], [])
    let years := (yearsSet.mergeSort (fun a b => decide (a ≤ b)))
    let allKw := yearKw.foldl (fun m kc => kc.2.foldl (fun m2 e => addCount m2 e.1 e.2) m) []
    let topKeywords := (mostCommon allKw 10).map Prod.fst
    let series := topKeywords.map fun kw => ⟨kw, years.map fun yv => countAt yearKw (.y yv) kw⟩
    (⟨years, series⟩, h1)

/-- The attitude read by `analyze_attitude_evolution`:
`(p.get("features") or {}).get("attitude", "谨慎中性")` against the heap
after enrichment. -/
def attitudeOf (h : Heap) (p : APaper) : String :=
  match p.features with
  | .absent => "谨慎中性"
  | .ref a =>
    let d := heapGet h a
    if d.isEmpty then "谨慎中性" else (dGet d "attitude").getD "谨慎中性"

/-- Embeds `analyze_attitude_evolution` (lines 298-324): enrich; per paper
with a non-missing year, count its attitude under the year key; emit one
zero-filled series per attitude category observed anywhere, categories
sorted ascending, over the ascending year list. -/
def analyzeAttitudeEvolution (proc : ProcFns) (papers0 : List APaper) (h : Heap) :
    TrendOutput × Heap :=
  let (papers, h1) := enrichPapers proc papers0 h
  if papers.isEmpty then (⟨[], []⟩, h1)
  else
    let step := fun (acc : List (YKey × List (String × Nat)) × List Int) (p : APaper) =>
      let (yatt, ys) := acc
      let att := attitudeOf h1 p
      let ys := match p.year with
        | .val v => insertSet ys v
        | _ => ys
      match ykeyOf p.year with
      | none => (yatt, ys)
      | some k => (bumpAt yatt k att, ys)
    let (yearAtt, yearsSet) := papers.foldl step ([], [])
    let years := (yearsSet.mergeSort (fun a b => decide (a ≤ b)))
    let allAtt := dedupFirstSeen ((yearAtt.map (fun kc => kc.2.map Prod.fst)).flatten)
    let categories := allAtt.mergeSort (fun a b => !strLt b a)
    let series := categories.map fun cat => ⟨cat, years.map fun yv => countAt yearAtt (.y yv) cat⟩
    (⟨years, series⟩, h1)

/-! ## Auxiliary predicates used in the claim statements -/

/-- Whether a year field carries a parseable integer year. -/
def isValY : YearField → Bool
  | .val _ => true
  | _ => false

/-- Total count of an insertion-ordered counter. -/
def sumCounts (m : List (α × Nat)) : Nat := (m.map Prod.snd).sum

/-- Whether a paper's `features` entry is fresh: the key is missing (or
`None`), or it references a valid, empty dict — i.e. the caller shares no
non-empty features dict with the analyzer. -/
def freshFeat (h : Heap) (p : APaper) : Bool :=
  match p.features with
  | .absent => true
  | .ref a => decide (a < h.length) && (heapGet h a).isEmpty

/-! ## Concrete fixtures for counterexamples and witnesses

Backends, stores and model functions below are concrete instances of the
external-collaborator interfaces; weights are passed explicitly (they are
parameters of `hybrid_search`). -/

/-- Metadata row with a missing year. -/
def mdNoYear : PaperMeta := ⟨"p1", "", "", "", .missing, ""⟩

/-- Environment whose BM25 backend returns the single candidate `p1`, whose
store knows `p1` with a missing year; the vector backend is unavailable. -/
def envC1 : SearchEnv where
  useEs := true
  useVec := false
  bm25Search := fun _ _ _ _ _ => [("p1", 1)]
  vectorSearch := fun _ _ => []
  store := fun pid => if pid = "p1" then some mdNoYear else none
  sqlite := fun _ _ _ _ _ _ => ([], 0)

/-- A call with only `end_year = 2020` active and unit BM25 weight. -/
def pC1 : FusionParams := ⟨"x", none, some 2020, none, 10, 0, 1, 0, 0, 0, 0, [], none⟩

/-- Metadata rows for the tie-break fixture. -/
def mdTieA : PaperMeta := ⟨"a", "", "", "", .missing, ""⟩

/-- Second tie-break row. -/
def mdTieB : PaperMeta := ⟨"b", "", "", "", .missing, ""⟩

/-- Environment whose BM25 backend returns `b` before `a` with equal raw
scores. -/
def envC2 : SearchEnv where
  useEs := true
  useVec := false
  bm25Search := fun _ _ _ _ _ => [("b", 1), ("a", 1)]
  vectorSearch := fun _ _ => []
  store := fun pid =>
    if pid = "a" then some mdTieA else if pid = "b" then some mdTieB else none
  sqlite := fun _ _ _ _ _ _ => ([], 0)

/-- An unfiltered call with unit BM25 weight. -/
def pC2 : FusionParams := ⟨"x", none, none, none, 10, 0, 1, 0, 0, 0, 0, [], none⟩

/-- Store rows with parseable years 2018 and 2019. -/
def mdY18 : PaperMeta := ⟨"p1", "", "", "", .val 2018, ""⟩

/-- Second row, year 2019. -/
def mdY19 : PaperMeta := ⟨"p2", "", "", "", .val 2019, ""⟩

/-- Environment with two candidates carrying distinct parseable years. -/
def envC4 : SearchEnv where
  useEs := true
  useVec := false
  bm25Search := fun _ _ _ _ _ => [("p1", 1), ("p2", 1)]
  vectorSearch := fun _ _ => []
  store := fun pid =>
    if pid = "p1" then some mdY18 else if pid = "p2" then some mdY19 else none
  sqlite := fun _ _ _ _ _ _ => ([], 0)

/-- An empty features store. -/
def featsNone : String → Option FeatRow := fun _ => none

/-- A one-item page over the two-candidate environment. -/
def dpC4 : DistParams := ⟨"x", none, none, none, 1, 0, false⟩

/-- Tie-break rows for the pagination fixture. -/
def mdPgA : PaperMeta := ⟨"a", "", "", "", .missing, ""⟩

/-- Second pagination row. -/
def mdPgB : PaperMeta := ⟨"b", "", "", "", .missing, ""⟩

/-- Third pagination row; its title contains the query. -/
def mdPgC : PaperMeta := ⟨"c", "x", "", "", .missing, ""⟩

/-- Environment whose BM25 backend depends on the requested `size` (as the
real backend does: `hybrid_search` requests `size = limit * 2`): a third,
higher-fused-score candidate appears only when more than two hits are
requested. -/
def envC5 : SearchEnv where
  useEs := true
  useVec := false
  bm25Search := fun _ _ _ _ size =>
    if size ≤ 2 then [("a", 10), ("b", 9)] else [("a", 10), ("b", 9), ("c", 8)]
  vectorSearch := fun _ _ => []
  store := fun pid =>
    if pid = "a" then some mdPgA
    else if pid = "b" then some mdPgB
    else if pid = "c" then some mdPgC
    else none
  sqlite := fun _ _ _ _ _ _ => ([], 0)

/-- Base parameters for the pagination fixture (w1 = titleBonus = 1). -/
def pC5 (limit offset : Nat) : FusionParams :=
  ⟨"x", none, none, none, limit, offset, 1, 0, 0, 0, 1, [], none⟩

/-- Environment whose BM25 backend is size-independent. -/
def envC5w : SearchEnv where
  useEs := true
  useVec := false
  bm25Search := fun _ _ _ _ _ => [("a", 1)]
  vectorSearch := fun _ _ => []
  store := fun pid => if pid = "a" then some mdPgA else none
  sqlite := fun _ _ _ _ _ _ => ([], 0)

/-- Environment where the BM25 backend returns an id (`ghost`) that is
absent from the metadata store. -/
def envC10 : SearchEnv where
  useEs := true
  useVec := false
  bm25Search := fun _ _ _ _ _ => [("ghost", 1), ("real", 1)]
  vectorSearch := fun _ _ => []
  store := fun pid => if pid = "real" then some ⟨"real", "", "", "", .missing, ""⟩ else none
  sqlite := fun _ _ _ _ _ _ => ([], 0)

/-- An unfiltered two-slot page. -/
def pC10 : FusionParams := ⟨"x", none, none, none, 2, 0, 1, 0, 0, 0, 0, [], none⟩

/-- Constant single-paper model functions (the analyzers' external models
are exercised only where enrichment needs them). -/
def procK : ProcFns := ⟨fun _ => [], fun _ => none, fun _ => "x"⟩

/-- A KMeans stand-in faithful to `n_clusters = 1`: every vector is labelled
0 (sklearn `fit_predict` returns one label per sample, each `< n`). -/
def kmeansAll0 : ClusterEnv := ⟨true, fun _ vs => List.replicate vs.length 0⟩

/-- A paper with one usable embedding vector, keywords and attitude label
already present. -/
def paperVec : APaper :=
  ⟨"p1", "", "", "", .missing, ["k"], some [1], .absent, "x", ""⟩

/-- A paper whose keyword list contains a duplicated keyword. -/
def paperDupKw : APaper :=
  ⟨"p1", "", "", "", .missing, ["a", "a"], some [1], .absent, "x", ""⟩

/-- A paper whose keyword list holds two distinct keywords. -/
def paperAB : APaper :=
  ⟨"p1", "", "", "", .missing, ["a", "b"], some [1], .absent, "x", ""⟩

/-- A heap holding one shared, non-empty features dict whose `attitude`
entry is the empty string. -/
def heapShared : Heap := [[("attitude", "")]]

/-- A paper referencing the shared features dict of `heapShared`. -/
def paperShared : APaper :=
  ⟨"p1", "", "", "", .missing, ["k"], some [1], .ref 0, "", ""⟩

/-- A heap holding one cell not referenced by any fixture paper. -/
def heapAside : Heap := [[("x", "y")]]

/-- A paper with fresh (absent) features, for the frame witness. -/
def paperFresh : APaper :=
  ⟨"p1", "", "", "", .val 2020, ["k"], some [1], .absent, "x", ""⟩

/-! ## Counterexamples -/

/-- C1 counterexample: with only `endYear = 2020` active, the candidate whose
metadata year is missing is NOT excluded from the fused candidate set — it is
scored (missing year is coerced to `0`, and `0 > 2020` is false) and
returned, where the claim requires its exclusion. -/
theorem missingYear_passes_endYearOnly_filter :
    mdNoYear.year = .missing ∧
    pC1.endYear = some 2020 ∧
    hybridSearch envC1 pC1 = some ([⟨mdNoYear, some 1⟩], 1) := by
  refine ⟨rfl, rfl, by decide⟩

/-- C2 counterexample: two candidates with identical fused scores are
returned in backend insertion order (`b` before `a`), although
`"a" < "b"` — paperId ascending is not the tie-break. -/
theorem equalScores_returned_in_insertion_order :
    hybridSearch envC2 pC2 = some ([⟨mdTieB, some 1⟩, ⟨mdTieA, some 1⟩], 2) ∧
    strLt mdTieA.paperId mdTieB.paperId = true := by
  refine ⟨by decide, by decide⟩

/-- C4 counterexample: with `limit = 1` over two matches with distinct
parseable years, the returned year distribution sums to 1 — the number of
parseable years on the returned page — while the unpaginated matched set
(the `combined` list, of reported total 2) has 2 papers with parseable
years: the distributions are computed over the page, not the unpaginated
set. -/
theorem yearDistribution_counts_page_not_unpaginated :
    searchWithDistributions envC4 featsNone dpC4 =
      some ⟨[⟨mdY18, some (9/20)⟩], 2, [], [(2018, 1)]⟩ ∧
    sumCounts [((2018 : Int), 1)] = 1 ∧
    combinedOf envC4 (distFusionParams dpC4) =
      some [("p1", 9/20), ("p2", 9/20)] ∧
    ([(("p1" : String), (9 : ℚ)/20), ("p2", 9/20)].filter
        (fun x => isValY (yearOf (envC4.store x.1)))).length = 2 := by
  refine ⟨by decide, by decide, by decide, by decide⟩

/-- C5 counterexample: because the backends are queried with
`size = limit * 2`, the candidate pool depends on `limit`; with the
size-sensitive backend of `envC5` and `k = 1`, the concatenation of the
pages `offset=0,limit=1` and `offset=1,limit=1` differs from the page
`offset=0,limit=2` (which sees a third candidate that outranks both). -/
theorem pagination_concat_fails_under_size_coupling :
    hybridSearch envC5 (pC5 1 0) = some ([⟨mdPgA, some 1⟩], 2) ∧
    hybridSearch envC5 (pC5 1 1) = some ([⟨mdPgB, some (9/10)⟩], 2) ∧
    hybridSearch envC5 (pC5 2 0) =
      some ([⟨mdPgC, some (9/5)⟩, ⟨mdPgA, some 1⟩], 3) ∧
    [ResultRow.mk mdPgA (some 1)] ++ [ResultRow.mk mdPgB (some (9/10))] ≠
      [ResultRow.mk mdPgC (some (9/5)), ResultRow.mk mdPgA (some 1)] := by
  refine ⟨by decide, by decide, by decide, by decide⟩

/-- C6 counterexample: with one qualifying paper and `k = 5` the effective
cluster count is `min(5, 1) = 1 < 2`, yet `perform_clustering` returns one
cluster, not an empty list (the source has no below-2 check; KMeans with
`n_clusters = 1` labels every sample 0). -/
theorem effectiveCount_one_still_produces_a_cluster :
    effectiveClusterCount 5 [[1]] = 1 ∧
    (performClustering kmeansAll0 procK [paperVec] 5 []).1 =
      [⟨0, "k", 1, ["p1"]⟩] := by
  refine ⟨by decide, by decide⟩

/-- C7 counterexample: a paper whose keyword list contains the duplicate
entries `["a", "a"]` produces the self-loop edge `(a, a)` — the two distinct
keyword positions hold equal keywords. -/
theorem duplicate_keywords_produce_selfLoop :
    (buildCooccurrenceNetwork procK [paperDupKw] 1 []).1.links =
      [⟨"a", "a", 1⟩] := by decide

/-- C8 counterexample: a caller-supplied paper carrying a non-empty features
dict (`attitude = ""`) has that nested dict mutated in place by the
enrichment step of `build_cooccurrence_network` — `dict(p)` is a shallow
copy, so `p["features"]["attitude"] = ...` writes through to the caller's
object. -/
theorem cooccurrence_mutates_shared_features_dict :
    (buildCooccurrenceNetwork procK [paperShared] 1 heapShared).2 =
      [[("attitude", "谨慎中性"), ("methods_label", "")]] ∧
    (buildCooccurrenceNetwork procK [paperShared] 1 heapShared).2 ≠ heapShared := by
  refine ⟨by decide, by decide⟩

/-- C9 counterexample: for the query `"2018-2024"` the year range is matched
and removed, but tokenization then yields nothing and the fallback returns
the whole raw query — the year phrase itself, containing the digit-run
`2018` — as the standalone topic term. -/
theorem yearPhrase_returned_as_fallback_topicTerm :
    (parseQuery "2018-2024").topicTerms = ["2018-2024"] ∧
    (parseQuery "2018-2024").startYear = some 2018 ∧
    (parseQuery "2018-2024").endYear = some 2024 ∧
    listInfixOf "2018".toList "2018-2024".toList = true := by
  refine ⟨by decide, by decide, by decide, by decide⟩

/-! ## Helper lemmas -/

theorem scoreGe_trans (a b c : String × ℚ) (hab : scoreGe a b) (hbc : scoreGe b c) :
    scoreGe a c := by
  simp only [scoreGe, decide_eq_true_eq] at *
  exact le_trans hbc hab

theorem scoreGe_total (a b : String × ℚ) : scoreGe a b || scoreGe b a := by
  simp only [scoreGe, Bool.or_eq_true, decide_eq_true_eq]
  exact le_total b.2 a.2

/-- Every member of the `combined` list comes from an `id_scores` entry that
passed all three hard filters and was scored. -/
theorem combineEntries_mem (store : String → Option PaperMeta) (p : FusionParams)
    (mb mv : ℚ) :
    ∀ (l : List IdEntry) (c : List (String × ℚ)) (pid : String) (sc : ℚ),
      combineEntries store p mb mv l = some c → (pid, sc) ∈ c →
      ∃ e, e ∈ l ∧ e.pid = pid ∧
        passYearStart p.startYear (yearOf (store pid)) = true ∧
        passYearEnd p.endYear (yearOf (store pid)) = true ∧
        passSource p.source (store pid) = true ∧
        fusedScoreOf store p mb mv e = some sc := by
  intro l
  induction l with
  | nil =>
    intro c pid sc hc hm
    simp only [combineEntries, Option.some.injEq] at hc
    subst hc
    simp at hm
  | cons e rest ih =>
    intro c pid sc hc hm
    simp only [combineEntries] at hc
    by_cases hpass :
        (passYearStart p.startYear (yearOf (store e.pid)) &&
          passYearEnd p.endYear (yearOf (store e.pid)) &&
          passSource p.source (store e.pid)) = true
    · rw [if_pos hpass] at hc
      rcases hfs : fusedScoreOf store p mb mv e with _ | sc0 <;> rw [hfs] at hc
      · exact absurd hc (by simp)
      · rcases hrest : combineEntries store p mb mv rest with _ | l0 <;>
          rw [hrest] at hc
        · exact absurd hc (by simp)
        · simp only [Option.some.injEq] at hc
          subst hc
          rcases List.mem_cons.mp hm with hhd | htl
          · have hpid : pid = e.pid := congrArg Prod.fst hhd
            have hsc : sc = sc0 := congrArg Prod.snd hhd
            subst hpid
            subst hsc
            simp only [Bool.and_eq_true] at hpass
            exact ⟨e, List.mem_cons_self _ _, rfl, hpass.1.1, hpass.1.2, hpass.2, hfs⟩
          · obtain ⟨e1, he1, rest⟩ := ih l0 pid sc hrest htl
            exact ⟨e1, List.mem_cons_of_mem _ he1, rest⟩
    · rw [if_neg hpass] at hc
      obtain ⟨e1, he1, rest⟩ := ih c pid sc hc hm
      exact ⟨e1, List.mem_cons_of_mem _ he1, rest⟩

/-- Every `id_scores` entry passing all three hard filters contributes a
scored candidate to the `combined` list. -/
theorem combineEntries_mem_of_pass (store : String → Option PaperMeta)
    (p : FusionParams) (mb mv : ℚ) :
    ∀ (l : List IdEntry) (c : List (String × ℚ)) (e : IdEntry),
      combineEntries store p mb mv l = some c → e ∈ l →
      passYearStart p.startYear (yearOf (store e.pid)) = true →
      passYearEnd p.endYear (yearOf (store e.pid)) = true →
      passSource p.source (store e.pid) = true →
      ∃ sc, (e.pid, sc) ∈ c := by
  intro l
  induction l with
  | nil =>
    intro c e _ hm
    simp at hm
  | cons e0 rest ih =>
    intro c e hc hm h1 h2 h3
    simp only [combineEntries] at hc
    by_cases hpass :
        (passYearStart p.startYear (yearOf (store e0.pid)) &&
          passYearEnd p.endYear (yearOf (store e0.pid)) &&
          passSource p.source (store e0.pid)) = true
    · rw [if_pos hpass] at hc
      rcases hfs : fusedScoreOf store p mb mv e0 with _ | sc0 <;> rw [hfs] at hc
      · exact absurd hc (by simp)
      · rcases hrest : combineEntries store p mb mv rest with _ | l0 <;>
          rw [hrest] at hc
        · exact absurd hc (by simp)
        · simp only [Option.some.injEq] at hc
          subst hc
          rcases List.mem_cons.mp hm with hhd | htl
          · subst hhd
            exact ⟨sc0, List.mem_cons_self _ _⟩
          · obtain ⟨sc, hsc⟩ := ih l0 e hrest htl h1 h2 h3
            exact ⟨sc, List.mem_cons_of_mem _ hsc⟩
    · rw [if_neg hpass] at hc
      rcases List.mem_cons.mp hm with hhd | htl
      · subst hhd
        rw [h1, h2, h3] at hpass
        simp at hpass
      · exact ih c e hc htl h1 h2 h3

/-! ## C1 — year filtering on the fused path -/

/-- C1 (amended): on the fused path, a candidate with an unparseable year is
excluded whenever a year bound is active, and a candidate whose parseable
year lies outside `[startYear, endYear]` is excluded; a missing year is
treated as year `0`, so it is excluded whenever `startYear` is given and
positive — but when only `endYear` is given (with `endYear ≥ 0`), a
missing-year candidate (passing the source filter) is NOT excluded: it
appears in the filtered candidate set. -/
theorem fusedPath_year_filter_characterization
    (env : SearchEnv) (p : FusionParams) (c : List (String × ℚ))
    (hc : combinedOf env p = some c) :
    (∀ pid sc, (pid, sc) ∈ c →
      (∀ s, p.startYear = some s → 0 < s →
        ∃ y, yearOf (env.store pid) = .val y ∧ s ≤ y) ∧
      (∀ ev, p.endYear = some ev →
        yearOf (env.store pid) ≠ .malformed ∧
        ∀ y, yearOf (env.store pid) = .val y → y ≤ ev)) ∧
    (∀ e, e ∈ idScoresOf env p → yearOf (env.store e.pid) = .missing →
      p.startYear = none → (∀ ev, p.endYear = some ev → 0 ≤ ev) →
      passSource p.source (env.store e.pid) = true →
      ∃ sc, (e.pid, sc) ∈ c) := by
  constructor
  · intro pid sc hm
    obtain ⟨e, -, -, hys, hye, -, -⟩ :=
      combineEntries_mem env.store p _ _ _ c pid sc hc hm
    constructor
    · intro s hs hpos
      rw [hs] at hys
      rcases hyf : yearOf (env.store pid) with _ | y | _ <;> rw [hyf] at hys
      · simp only [passYearStart, decide_eq_true_eq] at hys
        omega
      · simp only [passYearStart, decide_eq_true_eq] at hys
        exact ⟨y, rfl, by omega⟩
      · simp [passYearStart] at hys
    · intro ev hev
      rw [hev] at hye
      rcases hyf : yearOf (env.store pid) with _ | y | _ <;> rw [hyf] at hye
      · exact ⟨by simp, fun y hy => by cases hy⟩
      · simp only [passYearEnd, decide_eq_true_eq] at hye
        refine ⟨by simp, fun y0 hy0 => ?_⟩
        cases hy0
        omega
      · simp [passYearEnd] at hye
  · intro e he hmiss hsy hey hsrc
    refine combineEntries_mem_of_pass env.store p _ _ _ c e hc he ?_ ?_ hsrc
    · rw [hsy, hmiss]
      rfl
    · rcases hey2 : p.endYear with _ | ev
      · rw [hmiss]
        rfl
      · rw [hmiss]
        have hv := hey ev hey2
        simp only [passYearEnd, decide_eq_true_eq]
        omega

/-- C1 witness: the amended theorem applied to the concrete fixture — the
missing-year candidate of `envC1` is in the filtered candidate set under the
endYear-only filter. -/
theorem fusedPath_year_filter_characterization_witness :
    ∃ sc, ((⟨"p1", some 1, none⟩ : IdEntry).pid, sc) ∈ [(("p1" : String), (1 : ℚ))] :=
  (fusedPath_year_filter_characterization envC1 pC1 [("p1", 1)] (by decide)).2
    ⟨"p1", some 1, none⟩ (by decide) (by decide) rfl
    (fun ev hev => by cases hev; decide) (by decide)

/-! ## C2 — tie-break order on the fused path -/

/-- C2 (amended): `combined.sort(key=..., reverse=True)` is a stable
descending sort, so for every pair of candidates with identical fused
scores the returned order preserves the candidates' `id_scores`
insertion order (the order they were first seen from the backends) — not
paperId ascending. -/
theorem equalScores_preserve_insertion_order
    (env : SearchEnv) (p : FusionParams) (c : List (String × ℚ))
    (x y : String × ℚ)
    (hc : combinedOf env p = some c) (hsub : List.Sublist [x, y] c)
    (heq : x.2 = y.2) :
    sortedOf env p = some (c.mergeSort scoreGe) ∧
    List.Sublist [x, y] (c.mergeSort scoreGe) := by
  refine ⟨by rw [sortedOf, hc]; rfl, ?_⟩
  refine List.pair_sublist_mergeSort scoreGe_trans scoreGe_total ?_ hsub
  simp [scoreGe, heq]

/-- C2 witness: the amended theorem applied to the tie fixture — the pair
`(b, a)`, in insertion order, is a sublist of the sorted output. -/
theorem equalScores_preserve_insertion_order_witness :
    sortedOf envC2 pC2 =
      some ([(("b" : String), (1 : ℚ)), ("a", 1)].mergeSort scoreGe) ∧
    List.Sublist [(("b" : String), (1 : ℚ)), ("a", 1)]
      ([(("b" : String), (1 : ℚ)), ("a", 1)].mergeSort scoreGe) :=
  equalScores_preserve_insertion_order envC2 pC2 [("b", 1), ("a", 1)]
    ("b", 1) ("a", 1) (by decide) (List.Sublist.refl _) rfl

/-! ## C3 — fused score bounds -/

/-- A BM25 signal stored in `id_scores` is absent or one of the raw BM25
hit scores. -/
def bmOk (bmh : List (String × ℚ)) (e : IdEntry) : Prop :=
  e.bm25 = none ∨ ∃ x ∈ bmh, e.bm25 = some x.2

/-- A vector signal stored in `id_scores` is absent or one of the raw
vector hit scores. -/
def vecOk (vh : List (String × ℚ)) (e : IdEntry) : Prop :=
  e.vec = none ∨ ∃ x ∈ vh, e.vec = some x.2

theorem upsertBm_mem (acc : List IdEntry) (pid : String) (s : ℚ) (e : IdEntry)
    (he : e ∈ upsertBm acc pid s) :
    e = ⟨pid, some s, none⟩ ∨ (∃ e0 ∈ acc, e = { e0 with bm25 := some s }) ∨
      e ∈ acc := by
  induction acc with
  | nil =>
    simp only [upsertBm, List.mem_singleton] at he
    exact Or.inl he
  | cons e0 rest ih =>
    simp only [upsertBm] at he
    by_cases h : e0.pid = pid
    · rw [if_pos h] at he
      rcases List.mem_cons.mp he with h1 | h2
      · exact Or.inr (Or.inl ⟨e0, List.mem_cons_self _ _, h1⟩)
      · exact Or.inr (Or.inr (List.mem_cons_of_mem _ h2))
    · rw [if_neg h] at he
      rcases List.mem_cons.mp he with h1 | h2
      · exact Or.inr (Or.inr (by simp [h1]))
      · rcases ih h2 with ha | ⟨e1, he1, heq⟩ | hc2
        · exact Or.inl ha
        · exact Or.inr (Or.inl ⟨e1, List.mem_cons_of_mem _ he1, heq⟩)
        · exact Or.inr (Or.inr (List.mem_cons_of_mem _ hc2))

theorem upsertVec_mem (acc : List IdEntry) (pid : String) (s : ℚ) (e : IdEntry)
    (he : e ∈ upsertVec acc pid s) :
    e = ⟨pid, none, some s⟩ ∨ (∃ e0 ∈ acc, e = { e0 with vec := some s }) ∨
      e ∈ acc := by
  induction acc with
  | nil =>
    simp only [upsertVec, List.mem_singleton] at he
    exact Or.inl he
  | cons e0 rest ih =>
    simp only [upsertVec] at he
    by_cases h : e0.pid = pid
    · rw [if_pos h] at he
      rcases List.mem_cons.mp he with h1 | h2
      · exact Or.inr (Or.inl ⟨e0, List.mem_cons_self _ _, h1⟩)
      · exact Or.inr (Or.inr (List.mem_cons_of_mem _ h2))
    · rw [if_neg h] at he
      rcases List.mem_cons.mp he with h1 | h2
      · exact Or.inr (Or.inr (by simp [h1]))
      · rcases ih h2 with ha | ⟨e1, he1, heq⟩ | hc2
        · exact Or.inl ha
        · exact Or.inr (Or.inl ⟨e1, List.mem_cons_of_mem _ he1, heq⟩)
        · exact Or.inr (Or.inr (List.mem_cons_of_mem _ hc2))

theorem foldl_upsertBm_ok (bmh vh : List (String × ℚ)) :
    ∀ (hits : List (String × ℚ)) (acc : List IdEntry),
      (∀ x ∈ hits, x ∈ bmh) → (∀ e ∈ acc, bmOk bmh e ∧ vecOk vh e) →
      ∀ e ∈ hits.foldl (fun a x => upsertBm a x.1 x.2) acc,
        bmOk bmh e ∧ vecOk vh e := by
  intro hits
  induction hits with
  | nil =>
    intro acc _ hacc e he
    exact hacc e he
  | cons x rest ih =>
    intro acc hhits hacc e he
    simp only [List.foldl_cons] at he
    refine ih (upsertBm acc x.1 x.2) (fun z hz => hhits z (List.mem_cons_of_mem _ hz))
      ?_ e he
    intro e1 he1
    rcases upsertBm_mem acc x.1 x.2 e1 he1 with h1 | ⟨e0, he0, heq⟩ | h3
    · subst h1
      exact ⟨Or.inr ⟨x, hhits x (List.mem_cons_self _ _), rfl⟩, Or.inl rfl⟩
    · subst heq
      exact ⟨Or.inr ⟨x, hhits x (List.mem_cons_self _ _), rfl⟩, (hacc e0 he0).2⟩
    · exact hacc e1 h3

theorem foldl_upsertVec_ok (bmh vh : List (String × ℚ)) :
    ∀ (hits : List (String × ℚ)) (acc : List IdEntry),
      (∀ x ∈ hits, x ∈ vh) → (∀ e ∈ acc, bmOk bmh e ∧ vecOk vh e) →
      ∀ e ∈ hits.foldl (fun a x => upsertVec a x.1 x.2) acc,
        bmOk bmh e ∧ vecOk vh e := by
  intro hits
  induction hits with
  | nil =>
    intro acc _ hacc e he
    exact hacc e he
  | cons x rest ih =>
    intro acc hhits hacc e he
    simp only [List.foldl_cons] at he
    refine ih (upsertVec acc x.1 x.2) (fun z hz => hhits z (List.mem_cons_of_mem _ hz))
      ?_ e he
    intro e1 he1
    rcases upsertVec_mem acc x.1 x.2 e1 he1 with h1 | ⟨e0, he0, heq⟩ | h3
    · subst h1
      exact ⟨Or.inl rfl, Or.inr ⟨x, hhits x (List.mem_cons_self _ _), rfl⟩⟩
    · subst heq
      exact ⟨(hacc e0 he0).1, Or.inr ⟨x, hhits x (List.mem_cons_self _ _), rfl⟩⟩
    · exact hacc e1 h3

/-- Every entry of `id_scores` carries signals drawn from the raw backend
hit lists (or no signal at all). -/
theorem idScores_signals (env : SearchEnv) (p : FusionParams) :
    ∀ e ∈ idScoresOf env p, bmOk (bmHits env p) e ∧ vecOk (vecHits env p) e := by
  intro e he
  unfold idScoresOf at he
  refine foldl_upsertVec_ok (bmHits env p) (vecHits env p) (vecHits env p) _
    (fun x hx => hx) ?_ e he
  intro e1 he1
  exact foldl_upsertBm_ok (bmHits env p) (vecHits env p) (bmHits env p) []
    (fun x hx => hx) (by intro z hz; simp at hz) e1 he1

theorem foldl_max_le (t : List (String × ℚ)) :
    ∀ b : ℚ, b ≤ t.foldl (fun m x => max m x.2) b ∧
      ∀ x ∈ t, x.2 ≤ t.foldl (fun m x => max m x.2) b := by
  induction t with
  | nil =>
    intro b
    exact ⟨le_refl _, by simp⟩
  | cons h t ih =>
    intro b
    simp only [List.foldl_cons]
    refine ⟨le_trans (le_max_left _ _) (ih (max b h.2)).1, ?_⟩
    intro x hx
    rcases List.mem_cons.mp hx with rfl | hx'
    · exact le_trans (le_max_right _ _) (ih (max b x.2)).1
    · exact (ih (max b h.2)).2 x hx'

theorem le_maxScore (hits : List (String × ℚ)) (x : String × ℚ) (hx : x ∈ hits) :
    x.2 ≤ maxScore hits := by
  cases hits with
  | nil => simp at hx
  | cons h t =>
    simp only [maxScore]
    rcases List.mem_cons.mp hx with rfl | hx'
    · exact (foldl_max_le t x.2).1
    · exact (foldl_max_le t h.2).2 x hx'

theorem normDenom_pos (hits : List (String × ℚ))
    (hpos : ∀ x ∈ hits, 0 ≤ x.2) : 0 < normDenom hits := by
  cases hits with
  | nil => norm_num [normDenom]
  | cons h t =>
    simp only [normDenom]
    by_cases hm : maxScore (h :: t) = 0
    · rw [if_pos hm]
      norm_num
    · rw [if_neg hm]
      have h0 : (0 : ℚ) ≤ h.2 := hpos h (List.mem_cons_self _ _)
      have h1 : h.2 ≤ maxScore (h :: t) := le_maxScore _ h (List.mem_cons_self _ _)
      rcases lt_or_eq_of_le (le_trans h0 h1) with hlt | heq0
      · exact hlt
      · exact absurd heq0.symm hm

theorem norm_bounds (hits : List (String × ℚ)) (hpos : ∀ x ∈ hits, 0 ≤ x.2)
    (x : String × ℚ) (hx : x ∈ hits) :
    0 ≤ x.2 / normDenom hits ∧ x.2 / normDenom hits ≤ 1 := by
  have hd := normDenom_pos hits hpos
  refine ⟨div_nonneg (hpos x hx) (le_of_lt hd), ?_⟩
  cases hits with
  | nil => simp at hx
  | cons h t =>
    simp only [normDenom] at hd ⊢
    by_cases hm : maxScore (h :: t) = 0
    · rw [if_pos hm]
      have : x.2 ≤ 0 := hm ▸ le_maxScore _ x hx
      have : x.2 = 0 := le_antisymm this (hpos x hx)
      rw [this]
      norm_num
    · rw [if_neg hm] at hd ⊢
      exact (div_le_one hd).mpr (le_maxScore _ x hx)

theorem journalWeight_bounds (j : String) :
    0 ≤ journalWeight j ∧ journalWeight j ≤ 1 := by
  constructor <;> (simp only [journalWeight]; split_ifs <;> norm_num)

theorem userPrefScore_bounds (t : String) (pt : List String) :
    0 ≤ userPrefScore t pt ∧ userPrefScore t pt ≤ 1 := by
  unfold userPrefScore
  split_ifs with h
  · norm_num
  · constructor
    · refine le_min (by norm_num) ?_
      have h1 : (0 : ℚ) ≤ ((pt.filter fun p => pyIn (pyLower p) (pyLower t)).length : ℚ) := by
        positivity
      have h2 : (0 : ℚ) < max 1 (pt.length : ℚ) := lt_of_lt_of_le one_pos (le_max_left _ _)
      positivity
    · exact min_le_left _ _

theorem titleMatchBonus_bounds (t : String) (tt : Option (List String))
    (q : String) (tb : ℚ) (h : titleMatchBonus t tt q = some tb) :
    0 ≤ tb ∧ tb ≤ 1 := by
  simp only [titleMatchBonus] at h
  by_cases h1 : t = ""
  · rw [if_pos h1] at h
    injection h with h2
    subst h2
    norm_num
  · rw [if_neg h1] at h
    by_cases h2 : truthyTerms tt = true
    · rw [if_pos h2] at h
      exact absurd h (by simp)
    · rw [if_neg h2] at h
      by_cases h3 : pyStrip q = ""
      · rw [if_pos h3] at h
        injection h with h4
        subst h4
        norm_num
      · rw [if_neg h3] at h
        by_cases h4 : pyStrip q ≠ "" ∧ pyIn (pyLower (pyStrip q)) (pyLower (pyStrip t)) = true
        · rw [if_pos h4] at h
          injection h with h5
          subst h5
          norm_num
        · rw [if_neg h4] at h
          injection h with h5
          subst h5
          norm_num

theorem fusedScoreOf_bounds (store : String → Option PaperMeta) (p : FusionParams)
    (mb mv : ℚ) (e : IdEntry) (sc : ℚ)
    (hw1 : 0 ≤ p.w1) (hw2 : 0 ≤ p.w2) (hw3 : 0 ≤ p.w3) (hw4 : 0 ≤ p.w4)
    (hwt : 0 ≤ p.titleBonus)
    (hbm : 0 ≤ e.bm25.getD 0 / mb ∧ e.bm25.getD 0 / mb ≤ 1)
    (hvc : 0 ≤ e.vec.getD 0 / mv ∧ e.vec.getD 0 / mv ≤ 1)
    (h : fusedScoreOf store p mb mv e = some sc) :
    0 ≤ sc ∧ sc ≤ p.w1 + p.w2 + p.w3 + p.w4 + p.titleBonus := by
  simp only [fusedScoreOf] at h
  rcases htb : titleMatchBonus (titleOf (store e.pid)) p.topicTerms p.q with _ | tb <;>
    rw [htb] at h
  · exact absurd h (by simp)
  · injection h with h1
    obtain ⟨hj1, hj2⟩ := journalWeight_bounds (journalOf (store e.pid))
    obtain ⟨hu1, hu2⟩ := userPrefScore_bounds
      (titleOf (store e.pid) ++ " " ++ abstractOf (store e.pid)) p.userPrefTerms
    obtain ⟨ht1, ht2⟩ := titleMatchBonus_bounds _ _ _ _ htb
    subst h1
    constructor
    · have t1 : 0 ≤ p.w1 * (e.bm25.getD 0 / mb) := mul_nonneg hw1 hbm.1
      have t2 : 0 ≤ p.w2 * (e.vec.getD 0 / mv) := mul_nonneg hw2 hvc.1
      have t3 : 0 ≤ p.w3 * journalWeight (journalOf (store e.pid)) := mul_nonneg hw3 hj1
      have t4 : 0 ≤ p.w4 * userPrefScore _ p.userPrefTerms := mul_nonneg hw4 hu1
      have t5 : 0 ≤ p.titleBonus * tb := mul_nonneg hwt ht1
      linarith
    · have t1 : p.w1 * (e.bm25.getD 0 / mb) ≤ p.w1 := mul_le_of_le_one_right hw1 hbm.2
      have t2 : p.w2 * (e.vec.getD 0 / mv) ≤ p.w2 := mul_le_of_le_one_right hw2 hvc.2
      have t3 : p.w3 * journalWeight (journalOf (store e.pid)) ≤ p.w3 :=
        mul_le_of_le_one_right hw3 hj2
      have t4 : p.w4 * userPrefScore _ p.userPrefTerms ≤ p.w4 :=
        mul_le_of_le_one_right hw4 hu2
      have t5 : p.titleBonus * tb ≤ p.titleBonus := mul_le_of_le_one_right hwt ht2
      linarith

/-- C3: on the fused path, with non-negative weights and non-negative raw
backend scores, every candidate's fused score lies in
`[0, w1 + w2 + w3 + w4 + titleBonus]`. -/
theorem fusedScore_bounded
    (env : SearchEnv) (p : FusionParams) (c : List (String × ℚ))
    (hw1 : 0 ≤ p.w1) (hw2 : 0 ≤ p.w2) (hw3 : 0 ≤ p.w3) (hw4 : 0 ≤ p.w4)
    (hwt : 0 ≤ p.titleBonus)
    (hbm : ∀ x ∈ bmHits env p, 0 ≤ x.2) (hvec : ∀ x ∈ vecHits env p, 0 ≤ x.2)
    (hc : combinedOf env p = some c) (pid : String) (sc : ℚ)
    (hm : (pid, sc) ∈ c) :
    0 ≤ sc ∧ sc ≤ p.w1 + p.w2 + p.w3 + p.w4 + p.titleBonus := by
  obtain ⟨e, he, -, -, -, -, hfs⟩ :=
    combineEntries_mem env.store p _ _ _ c pid sc hc hm
  obtain ⟨hbo, hvo⟩ := idScores_signals env p e he
  have hbmn : 0 ≤ e.bm25.getD 0 / normDenom (bmHits env p) ∧
      e.bm25.getD 0 / normDenom (bmHits env p) ≤ 1 := by
    rcases hbo with hnone | ⟨x, hx, hex⟩
    · rw [hnone]
      simp only [Option.getD_none, zero_div]
      norm_num
    · rw [hex]
      simp only [Option.getD_some]
      exact norm_bounds (bmHits env p) hbm x hx
  have hvcn : 0 ≤ e.vec.getD 0 / normDenom (vecHits env p) ∧
      e.vec.getD 0 / normDenom (vecHits env p) ≤ 1 := by
    rcases hvo with hnone | ⟨x, hx, hex⟩
    · rw [hnone]
      simp only [Option.getD_none, zero_div]
      norm_num
    · rw [hex]
      simp only [Option.getD_some]
      exact norm_bounds (vecHits env p) hvec x hx
  exact fusedScoreOf_bounds env.store p _ _ e sc hw1 hw2 hw3 hw4 hwt hbmn hvcn hfs

/-- C3 witness: the bound theorem applied to the tie fixture. -/
theorem fusedScore_bounded_witness :
    0 ≤ (1 : ℚ) ∧ (1 : ℚ) ≤ pC2.w1 + pC2.w2 + pC2.w3 + pC2.w4 + pC2.titleBonus :=
  fusedScore_bounded envC2 pC2 [("b", 1), ("a", 1)]
    (by norm_num [pC2]) (by norm_num [pC2]) (by norm_num [pC2]) (by norm_num [pC2])
    (by norm_num [pC2])
    (by decide) (by decide)
    (by decide) "b" 1 (List.mem_cons_self _ _)

/-! ## C4 — total and distributions -/

theorem sumCounts_bump [DecidableEq α] (m : List (α × Nat)) (k : α) :
    sumCounts (bump m k) = sumCounts m + 1 := by
  induction m with
  | nil => simp [bump, sumCounts]
  | cons a rest ih =>
    rcases a with ⟨a1, n⟩
    simp only [bump]
    by_cases h : a1 = k
    · rw [if_pos h]
      simp only [sumCounts, List.map_cons, List.sum_cons]
      omega
    · rw [if_neg h]
      simp only [sumCounts, List.map_cons, List.sum_cons] at ih ⊢
      omega

theorem yearCounter_sum_aux :
    ∀ (rs : List ResultRow) (m : List (Int × Nat)),
      sumCounts (rs.foldl
        (fun m r => match r.meta.year with | .val y => bump m y | _ => m) m) =
      sumCounts m + (rs.filter (fun r => isValY r.meta.year)).length := by
  intro rs
  induction rs with
  | nil => simp
  | cons r rest ih =>
    intro m
    simp only [List.foldl_cons, List.filter_cons]
    cases hy : r.meta.year with
    | missing => simpa [isValY] using ih m
    | val y =>
      rw [ih (bump m y), sumCounts_bump]
      simp only [isValY, if_true, List.length_cons]
      omega
    | malformed => simpa [isValY] using ih m

theorem yearCounter_sum (rs : List ResultRow) :
    sumCounts (yearCounter rs) = (rs.filter (fun r => isValY r.meta.year)).length := by
  have h := yearCounter_sum_aux rs []
  simpa [yearCounter, sumCounts] using h

theorem sumCounts_perm {m1 m2 : List (α × Nat)} (h : m1.Perm m2) :
    sumCounts m1 = sumCounts m2 :=
  List.Perm.sum_eq (h.map Prod.snd)

theorem sortYears_sum (m : List (Int × Nat)) : sumCounts (sortYears m) = sumCounts m :=
  sumCounts_perm (List.mergeSort_perm m _)

/-- C4 (amended): on the fused path with a non-empty returned page, the
returned total is the filtered-candidate count before pagination, and the
year distribution counts sum exactly to the number of papers with a present,
parseable year ON THE RETURNED PAGE — the distributions are computed over
the paginated results, not the unpaginated matched set (and when the page is
empty, the call reports total 0 regardless of the matched count). -/
theorem total_prePagination_and_yearSum_over_page
    (env : SearchEnv) (feats : String → Option FeatRow) (dp : DistParams)
    (o : DistOutput) (c : List (String × ℚ))
    (hpath : (env.useEs || env.useVec) = true)
    (hne : idScoresOf env (distFusionParams dp) ≠ [])
    (hc : combinedOf env (distFusionParams dp) = some c)
    (ho : searchWithDistributions env feats dp = some o)
    (hres : o.results ≠ []) :
    o.total = c.length ∧
    sumCounts o.yearDistribution =
      (o.results.filter (fun r => isValY r.meta.year)).length := by
  have hEmp : (idScoresOf env (distFusionParams dp)).isEmpty = false := by
    cases hidl : idScoresOf env (distFusionParams dp)
    · exact absurd hidl hne
    · rfl
  have hsort : sortedOf env (distFusionParams dp) = some (c.mergeSort scoreGe) := by
    rw [sortedOf, hc]
    rfl
  have hhyb : hybridSearch env (distFusionParams dp) =
      some (resultsFromPage env.store (c.mergeSort scoreGe)
          (distFusionParams dp).offset (distFusionParams dp).limit,
        (c.mergeSort scoreGe).length) := by
    simp only [hybridSearch, hpath, hEmp, hsort, Bool.not_false, Bool.and_self,
      if_true]
  simp only [searchWithDistributions, hhyb] at ho
  by_cases hre : (resultsFromPage env.store (c.mergeSort scoreGe)
      (distFusionParams dp).offset (distFusionParams dp).limit).isEmpty
  · rw [if_pos hre] at ho
    injection ho with ho1
    rw [← ho1] at hres
    exact absurd rfl hres
  · rw [if_neg hre] at ho
    injection ho with ho1
    subst ho1
    refine ⟨by simp, ?_⟩
    rw [sortYears_sum, yearCounter_sum]

/-- C4 witness: the amended theorem applied to the two-candidate fixture
with a one-item page. -/
theorem total_prePagination_and_yearSum_over_page_witness :
    (DistOutput.mk [⟨mdY18, some (9/20)⟩] 2 [] [(2018, 1)]).total =
      [(("p1" : String), (9 : ℚ)/20), ("p2", 9/20)].length ∧
    sumCounts (DistOutput.mk [⟨mdY18, some (9/20)⟩] 2 [] [(2018, 1)]).yearDistribution =
      ((DistOutput.mk [⟨mdY18, some (9/20)⟩] 2 [] [(2018, 1)]).results.filter
        (fun r => isValY r.meta.year)).length :=
  total_prePagination_and_yearSum_over_page envC4 featsNone dpC4
    ⟨[⟨mdY18, some (9/20)⟩], 2, [], [(2018, 1)]⟩ [("p1", 9/20), ("p2", 9/20)]
    rfl (by decide) (by decide) (by decide) (by decide)

/-! ## C5 — pagination consistency -/

theorem combineEntries_congr (store : String → Option PaperMeta)
    (pA pB : FusionParams)
    (hq : pA.q = pB.q) (hsy : pA.startYear = pB.startYear)
    (hey : pA.endYear = pB.endYear) (hsrc : pA.source = pB.source)
    (hw1 : pA.w1 = pB.w1) (hw2 : pA.w2 = pB.w2) (hw3 : pA.w3 = pB.w3)
    (hw4 : pA.w4 = pB.w4) (hwt : pA.titleBonus = pB.titleBonus)
    (hup : pA.userPrefTerms = pB.userPrefTerms)
    (htt : pA.topicTerms = pB.topicTerms) (mb mv : ℚ) :
    ∀ l, combineEntries store pA mb mv l = combineEntries store pB mb mv l := by
  intro l
  induction l with
  | nil => rfl
  | cons e rest ih =>
    simp only [combineEntries, fusedScoreOf, hq, hsy, hey, hsrc, hw1, hw2, hw3,
      hw4, hwt, hup, htt, ih]

theorem resultsFromPage_concat (store : String → Option PaperMeta)
    (c : List (String × ℚ)) (k : Nat) :
    resultsFromPage store c 0 k ++ resultsFromPage store c k k =
      resultsFromPage store c 0 (2 * k) := by
  simp only [resultsFromPage, pageWindow, List.drop_zero]
  rw [two_mul, List.take_add, List.map_append, List.filterMap_append]

/-- C5 (amended): pagination consistency holds whenever the backends return
the same hit lists for the two requested sizes (`hybrid_search` requests
`size = limit * 2`, so the two calls with `limit = k` and the one call with
`limit = 2k` query different sizes): under that hypothesis, on the fused
path, concatenating the pages `offset=0,limit=k` and `offset=k,limit=k`
equals the single page `offset=0,limit=2k`, with equal totals. Without it
the property fails (see the size-coupling counterexample). -/
theorem pagination_concat_with_stable_backends
    (env : SearchEnv) (p : FusionParams) (k : Nat)
    (hbm : env.bm25Search p.q p.startYear p.endYear p.source (k * 2) =
      env.bm25Search p.q p.startYear p.endYear p.source (2 * k * 2))
    (hvec : env.vectorSearch p.q (k * 2) = env.vectorSearch p.q (2 * k * 2))
    (hpath : (env.useEs || env.useVec) = true)
    (hne : idScoresOf env { p with limit := k, offset := 0 } ≠ [])
    (r0 r1 r2 : List ResultRow) (t0 t1 t2 : Nat)
    (h0 : hybridSearch env { p with limit := k, offset := 0 } = some (r0, t0))
    (h1 : hybridSearch env { p with limit := k, offset := k } = some (r1, t1))
    (h2 : hybridSearch env { p with limit := 2 * k, offset := 0 } = some (r2, t2)) :
    r0 ++ r1 = r2 ∧ t0 = t2 ∧ t1 = t2 := by
  have hbmAC : bmHits env { p with limit := k, offset := 0 } =
      bmHits env { p with limit := 2 * k, offset := 0 } := by
    simp only [bmHits]
    rw [hbm]
  have hvecAC : vecHits env { p with limit := k, offset := 0 } =
      vecHits env { p with limit := 2 * k, offset := 0 } := by
    simp only [vecHits]
    rw [hvec]
  have hidAC : idScoresOf env { p with limit := k, offset := 0 } =
      idScoresOf env { p with limit := 2 * k, offset := 0 } := by
    simp only [idScoresOf, hbmAC, hvecAC]
  have hcombAB : combinedOf env { p with limit := k, offset := 0 } =
      combinedOf env { p with limit := k, offset := k } := by
    simp only [combinedOf]
    exact combineEntries_congr env.store { p with limit := k, offset := 0 }
      { p with limit := k, offset := k } rfl rfl rfl rfl rfl rfl rfl rfl rfl
      rfl rfl _ _ _
  have hcombAC : combinedOf env { p with limit := k, offset := 0 } =
      combinedOf env { p with limit := 2 * k, offset := 0 } := by
    simp only [combinedOf]
    rw [hbmAC, hvecAC, hidAC]
    exact combineEntries_congr env.store { p with limit := k, offset := 0 }
      { p with limit := 2 * k, offset := 0 } rfl rfl rfl rfl rfl rfl rfl rfl rfl
      rfl rfl _ _ _
  rcases hcA : combinedOf env { p with limit := k, offset := 0 } with _ | c
  · have hsA : sortedOf env { p with limit := k, offset := 0 } = none := by
      rw [sortedOf, hcA]
      rfl
    have hEmpA : (idScoresOf env { p with limit := k, offset := 0 }).isEmpty = false := by
      cases hidl : idScoresOf env { p with limit := k, offset := 0 }
      · exact absurd hidl hne
      · rfl
    simp only [hybridSearch, hpath, hEmpA, hsA, Bool.not_false, Bool.and_self,
      if_true] at h0
    exact absurd h0 (by simp)
  · have hcB : combinedOf env { p with limit := k, offset := k } = some c := by
      rw [← hcombAB]
      exact hcA
    have hcC : combinedOf env { p with limit := 2 * k, offset := 0 } = some c := by
      rw [← hcombAC]
      exact hcA
    have hEmpA : (idScoresOf env { p with limit := k, offset := 0 }).isEmpty = false := by
      cases hidl : idScoresOf env { p with limit := k, offset := 0 }
      · exact absurd hidl hne
      · rfl
    have hEmpB : (idScoresOf env { p with limit := k, offset := k }).isEmpty = false :=
      hEmpA
    have hEmpC : (idScoresOf env { p with limit := 2 * k, offset := 0 }).isEmpty = false := by
      rw [← hidAC]
      exact hEmpA
    have hsA : sortedOf env { p with limit := k, offset := 0 } =
        some (c.mergeSort scoreGe) := by
      rw [sortedOf, hcA]
      rfl
    have hsB : sortedOf env { p with limit := k, offset := k } =
        some (c.mergeSort scoreGe) := by
      rw [sortedOf, hcB]
      rfl
    have hsC : sortedOf env { p with limit := 2 * k, offset := 0 } =
        some (c.mergeSort scoreGe) := by
      rw [sortedOf, hcC]
      rfl
    simp only [hybridSearch, hpath, hEmpA, hsA, Bool.not_false, Bool.and_self,
      if_true, Option.some.injEq] at h0
    simp only [hybridSearch, hpath, hEmpB, hsB, Bool.not_false, Bool.and_self,
      if_true, Option.some.injEq] at h1
    simp only [hybridSearch, hpath, hEmpC, hsC, Bool.not_false, Bool.and_self,
      if_true, Option.some.injEq] at h2
    have hr0 : resultsFromPage env.store (c.mergeSort scoreGe) 0 k = r0 :=
      congrArg Prod.fst h0
    have ht0 : (c.mergeSort scoreGe).length = t0 := congrArg Prod.snd h0
    have hr1 : resultsFromPage env.store (c.mergeSort scoreGe) k k = r1 :=
      congrArg Prod.fst h1
    have ht1 : (c.mergeSort scoreGe).length = t1 := congrArg Prod.snd h1
    have hr2 : resultsFromPage env.store (c.mergeSort scoreGe) 0 (2 * k) = r2 :=
      congrArg Prod.fst h2
    have ht2 : (c.mergeSort scoreGe).length = t2 := congrArg Prod.snd h2
    refine ⟨?_, ?_, ?_⟩
    · rw [← hr0, ← hr1, ← hr2]
      exact resultsFromPage_concat env.store (c.mergeSort scoreGe) k
    · rw [← ht0, ← ht2]
    · rw [← ht1, ← ht2]

/-- C5 witness: with a size-independent backend the concatenation property
holds on the concrete fixture (`k = 1`; the second page is empty). -/
theorem pagination_concat_with_stable_backends_witness :
    [ResultRow.mk mdPgA (some 1)] ++ ([] : List ResultRow) =
      [ResultRow.mk mdPgA (some 1)] ∧ (1 : Nat) = 1 ∧ (1 : Nat) = 1 :=
  pagination_concat_with_stable_backends envC5w (pC5 1 0) 1 rfl rfl rfl
    (by decide) [⟨mdPgA, some 1⟩] [] [⟨mdPgA, some 1⟩] 1 1 1
    (by decide) (by decide) (by decide)

/-! ## C10 — backend ids absent from the metadata store -/

theorem filterMap_length_lt (f : α → Option β) (l : List α) (a : α)
    (ha : a ∈ l) (hf : f a = none) : (l.filterMap f).length < l.length := by
  induction l with
  | nil => simp at ha
  | cons b t ih =>
    rcases List.mem_cons.mp ha with rfl | ht
    · simp only [List.filterMap_cons, hf]
      exact Nat.lt_succ_of_le (List.length_filterMap_le f t)
    · cases hfb : f b
      · simp only [List.filterMap_cons, hfb]
        exact Nat.lt_succ_of_lt (ih ht)
      · simp only [List.filterMap_cons, hfb, List.length_cons]
        exact Nat.succ_lt_succ (ih ht)

/-- C10: on the fused path with no year and no source filter, a candidate id
returned by a backend but absent from the metadata store passes the hard
filters (it is in the `combined` list), is counted in the returned total
(`total = len(combined)`), and — whenever it falls inside the selected page
window — is omitted from the returned results, which are then strictly
shorter than the page window: a page can hold fewer than `limit` items even
though `total` indicates more matches. -/
theorem ghost_candidate_counted_but_omitted
    (env : SearchEnv) (p : FusionParams) (c : List (String × ℚ)) (pid : String)
    (hpath : (env.useEs || env.useVec) = true)
    (hsy : p.startYear = none) (hey : p.endYear = none) (hsrc : p.source = none)
    (hstore : env.store pid = none)
    (hcoh : ∀ q m, env.store q = some m → m.paperId = q)
    (hmem : pid ∈ (idScoresOf env p).map IdEntry.pid)
    (hc : combinedOf env p = some c) :
    pid ∈ c.map Prod.fst ∧
    ∀ r t, hybridSearch env p = some (r, t) →
      t = c.length ∧
      pid ∉ r.map (fun row => row.meta.paperId) ∧
      (pid ∈ pageWindow (c.mergeSort scoreGe) p.offset p.limit →
        r.length < (pageWindow (c.mergeSort scoreGe) p.offset p.limit).length) := by
  obtain ⟨e, he, hepid⟩ := List.mem_map.mp hmem
  have hpass1 : passYearStart p.startYear (yearOf (env.store e.pid)) = true := by
    rw [hsy]
    rfl
  have hpass2 : passYearEnd p.endYear (yearOf (env.store e.pid)) = true := by
    rw [hey]
    rfl
  have hpass3 : passSource p.source (env.store e.pid) = true := by
    rw [hsrc]
    rfl
  obtain ⟨sc, hsc⟩ :=
    combineEntries_mem_of_pass env.store p _ _ _ c e hc he hpass1 hpass2 hpass3
  constructor
  · rw [← hepid]
    exact List.mem_map.mpr ⟨(e.pid, sc), hsc, rfl⟩
  · intro r t hr
    have hne : idScoresOf env p ≠ [] := by
      intro h0
      rw [h0] at he
      simp at he
    have hEmp : (idScoresOf env p).isEmpty = false := by
      cases hidl : idScoresOf env p
      · exact absurd hidl hne
      · rfl
    have hsort : sortedOf env p = some (c.mergeSort scoreGe) := by
      rw [sortedOf, hc]
      rfl
    simp only [hybridSearch, hpath, hEmp, hsort, Bool.not_false, Bool.and_self,
      if_true, Option.some.injEq] at hr
    have hrr : resultsFromPage env.store (c.mergeSort scoreGe) p.offset p.limit = r :=
      congrArg Prod.fst hr
    have hrt : (c.mergeSort scoreGe).length = t := congrArg Prod.snd hr
    refine ⟨by rw [← hrt, List.length_mergeSort], ?_, ?_⟩
    · intro habs
      obtain ⟨row, hrow, hrowid⟩ := List.mem_map.mp habs
      rw [← hrr] at hrow
      obtain ⟨pid1, hpid1, hf⟩ := List.mem_filterMap.mp hrow
      rcases hst : env.store pid1 with _ | m <;> rw [hst] at hf
      · exact absurd hf (by simp)
      · simp only [Option.some.injEq] at hf
        have hmid : row.meta = m := by rw [← hf]
        have : pid1 = pid := by
          rw [← hrowid, hmid]
          exact (hcoh pid1 m hst).symm
        rw [this] at hst
        rw [hstore] at hst
        exact absurd hst (by simp)
    · intro hwin
      rw [← hrr]
      refine filterMap_length_lt _ _ pid hwin ?_
      rw [hstore]

/-- C10 witness: the theorem applied to the ghost fixture — the ghost id is
in the candidate set, and the returned one-row page is shorter than its
two-slot window. -/
theorem ghost_candidate_counted_but_omitted_witness :
    ("ghost" : String) ∈ [(("ghost" : String), (1 : ℚ)), ("real", 1)].map Prod.fst :=
  (ghost_candidate_counted_but_omitted envC10 pC10
    [("ghost", 1), ("real", 1)] "ghost" rfl rfl rfl rfl (by decide)
    (by
      intro q m h
      simp only [envC10] at h
      split at h
      · injection h with h1
        rw [← h1]
        simp_all
      · exact absurd h (by simp))
    (by decide) (by decide)).1

/-! ## C6 — effective cluster count -/

theorem filterMap_vector_length (l : List APaper)
    (hall : ∀ p ∈ l, usableVector p = true) :
    (l.filterMap (fun p => p.vector)).length = l.length := by
  induction l with
  | nil => simp
  | cons p t ih =>
    have hp := hall p (List.mem_cons_self _ _)
    rcases hv : p.vector with _ | v
    · rw [usableVector, hv] at hp
      exact absurd hp (by simp)
    · simp only [List.filterMap_cons, hv, List.length_cons]
      rw [ih (fun q hq => hall q (List.mem_cons_of_mem _ hq))]

theorem groupAdd_keys (acc : List (Nat × List APaper)) (l : Nat) (p : APaper) :
    (groupAdd acc l p).map Prod.fst =
      if (acc.map Prod.fst).contains l then acc.map Prod.fst
      else acc.map Prod.fst ++ [l] := by
  induction acc with
  | nil => simp [groupAdd]
  | cons kp rest ih =>
    rcases kp with ⟨k0, ps⟩
    simp only [groupAdd, List.map_cons, List.contains_cons]
    by_cases h : k0 = l
    · rw [if_pos h]
      simp [h]
    · rw [if_neg h]
      have hbeq : (l == k0) = false := by
        simp only [beq_eq_false_iff_ne, ne_eq]
        omega
      simp only [List.map_cons, ih, hbeq, Bool.false_or]
      by_cases hc : (rest.map Prod.fst).contains l = true
      · rw [if_pos hc, if_pos hc]
      · rw [if_neg hc, if_neg hc, List.cons_append]

theorem foldl_groupAdd_keys_nodup :
    ∀ (pairs : List (Nat × APaper)) (acc : List (Nat × List APaper)),
      (acc.map Prod.fst).Nodup →
      ((pairs.foldl (fun a x => groupAdd a x.1 x.2) acc).map Prod.fst).Nodup := by
  intro pairs
  induction pairs with
  | nil =>
    intro acc h
    simpa using h
  | cons x rest ih =>
    intro acc h
    simp only [List.foldl_cons]
    refine ih (groupAdd acc x.1 x.2) ?_
    rw [groupAdd_keys]
    by_cases hc : (acc.map Prod.fst).contains x.1
    · rw [if_pos hc]
      exact h
    · rw [if_neg hc]
      have hnm : x.1 ∉ acc.map Prod.fst := by
        intro hmem
        exact hc (List.elem_iff.mpr hmem)
      simp only [List.nodup_append, List.nodup_singleton]
      exact ⟨h, by trivial, by simpa using hnm⟩

theorem foldl_groupAdd_keys_sub :
    ∀ (pairs : List (Nat × APaper)) (acc : List (Nat × List APaper)) (x : Nat),
      x ∈ (pairs.foldl (fun a y => groupAdd a y.1 y.2) acc).map Prod.fst →
      x ∈ acc.map Prod.fst ∨ ∃ pr ∈ pairs, x = pr.1 := by
  intro pairs
  induction pairs with
  | nil =>
    intro acc x hx
    exact Or.inl hx
  | cons y rest ih =>
    intro acc x hx
    simp only [List.foldl_cons] at hx
    rcases ih (groupAdd acc y.1 y.2) x hx with hin | ⟨pr, hpr, hx1⟩
    · rw [groupAdd_keys] at hin
      by_cases hc : (acc.map Prod.fst).contains y.1
      · rw [if_pos hc] at hin
        exact Or.inl hin
      · rw [if_neg hc] at hin
        rcases List.mem_append.mp hin with h1 | h2
        · exact Or.inl h1
        · simp only [List.mem_singleton] at h2
          exact Or.inr ⟨y, List.mem_cons_self _ _, h2⟩
    · exact Or.inr ⟨pr, List.mem_cons_of_mem _ hpr, hx1⟩

theorem groupAdd_ne_nil (acc : List (Nat × List APaper)) (l : Nat) (p : APaper) :
    groupAdd acc l p ≠ [] := by
  cases acc with
  | nil => simp [groupAdd]
  | cons kp rest =>
    rcases kp with ⟨k0, ps⟩
    simp only [groupAdd]
    by_cases h : k0 = l
    · rw [if_pos h]
      simp
    · rw [if_neg h]
      simp

theorem foldl_groupAdd_ne :
    ∀ (pairs : List (Nat × APaper)) (acc : List (Nat × List APaper)),
      acc ≠ [] ∨ pairs ≠ [] →
      pairs.foldl (fun a x => groupAdd a x.1 x.2) acc ≠ [] := by
  intro pairs
  induction pairs with
  | nil =>
    intro acc h
    simpa using h.resolve_right (by simp)
  | cons x rest ih =>
    intro acc _
    simp only [List.foldl_cons]
    exact ih (groupAdd acc x.1 x.2) (Or.inl (groupAdd_ne_nil acc x.1 x.2))

theorem nodup_bounded_length_le (keys : List Nat) (n : Nat) (hnd : keys.Nodup)
    (hlt : ∀ x ∈ keys, x < n) : keys.length ≤ n := by
  have h1 : keys.toFinset ⊆ Finset.range n := by
    intro x hx
    exact Finset.mem_range.mpr (hlt x (List.mem_toFinset.mp hx))
  have h2 := Finset.card_le_card h1
  rwa [List.toFinset_card_of_nodup hnd, Finset.card_range] at h2

/-- C6 (amended): the cluster count requested from KMeans is
`min(k, qualifyingPaperCount)` and bounds the number of returned clusters;
but the call returns an empty cluster list exactly when there are NO
qualifying papers (given the ML stack) — there is no below-2 check: an
effective count of 1 produces a (single) cluster, not an empty list. -/
theorem clustering_effective_count_and_emptiness
    (env : ClusterEnv) (proc : ProcFns) (papers0 : List APaper) (k : Nat) (h : Heap)
    (hml : env.mlAvailable = true) (hk : 1 ≤ k)
    (hlen : ∀ n vs, 1 ≤ n → (env.fitPredict n vs).length = vs.length)
    (hrange : ∀ n vs, 1 ≤ n → ∀ l ∈ env.fitPredict n vs, l < n) :
    ((performClustering env proc papers0 k h).1 = [] ↔
      (enrichPapers proc papers0 h).1.filter usableVector = []) ∧
    (performClustering env proc papers0 k h).1.length ≤
      min k ((enrichPapers proc papers0 h).1.filter usableVector).length := by
  rcases henr : enrichPapers proc papers0 h with ⟨papers, h1⟩
  simp only [performClustering, henr]
  by_cases hemp : papers.isEmpty = true
  · have hpn : papers = [] := by simpa using hemp
    subst hpn
    simp
  · rw [if_neg hemp]
    simp only [hml, Bool.not_true, Bool.false_eq_true, if_false]
    set valid := papers.filter usableVector with hvaldef
    set vectors := valid.filterMap (fun p => p.vector) with hvecdef
    have hall : ∀ q ∈ valid, usableVector q = true :=
      fun q hq => List.of_mem_filter hq
    have hlenv : vectors.length = valid.length := filterMap_vector_length _ hall
    by_cases hv : vectors.isEmpty = true
    · rw [if_pos hv]
      have hvn : vectors = [] := by simpa using hv
      have hfn : valid = [] := by
        have h2 := hlenv
        rw [hvn] at h2
        exact List.length_eq_zero.mp h2.symm
      simp [hfn]
    · rw [if_neg hv]
      have hvne : vectors ≠ [] := by
        intro h0
        rw [h0] at hv
        simp at hv
      have hvpos : 0 < vectors.length := List.length_pos.mpr hvne
      set n := effectiveClusterCount k vectors with hndef
      have hn1 : 1 ≤ n := by
        rw [hndef]
        simp only [effectiveClusterCount]
        omega
      set labels := env.fitPredict n vectors with hlabdef
      have hlab : labels.length = vectors.length := hlen n vectors hn1
      set pairsZ := labels.zip valid with hzdef
      have hzlen : pairsZ.length = valid.length := by
        rw [hzdef, List.length_zip, hlab, hlenv]
        omega
      have hzipne : pairsZ ≠ [] := by
        intro h0
        rw [h0] at hzlen
        simp only [List.length_nil] at hzlen
        omega
      set groups := groupByLabel pairsZ with hgdef
      have hgne : groups ≠ [] := foldl_groupAdd_ne _ [] (Or.inr hzipne)
      have hclen : ((groups.mergeSort (fun x y => decide (x.1 ≤ y.1))).map
          (fun g => summarizeCluster g.1 g.2)).length = groups.length := by
        rw [List.length_map, List.length_mergeSort]
      constructor
      · constructor
        · intro habs
          have habs2 : (List.map (fun g => summarizeCluster g.1 g.2)
              (groups.mergeSort fun x y => decide (x.1 ≤ y.1))) = [] := habs
          rw [habs2] at hclen
          simp only [List.length_nil] at hclen
          exact absurd (List.length_eq_zero.mp hclen.symm) hgne
        · intro habs
          exfalso
          rw [habs] at hlenv
          simp only [List.length_nil] at hlenv
          exact absurd (List.length_eq_zero.mp hlenv) hvne
      · show (List.map (fun g => summarizeCluster g.1 g.2)
            (groups.mergeSort fun x y => decide (x.1 ≤ y.1))).length ≤
          min k valid.length
        rw [hclen]
        have hnd : (groups.map Prod.fst).Nodup :=
          foldl_groupAdd_keys_nodup pairsZ [] (by simp)
        have hsub : ∀ x ∈ groups.map Prod.fst, x < n := by
          intro x hx
          rcases foldl_groupAdd_keys_sub pairsZ [] x hx with h0 | ⟨pr, hpr, hx1⟩
          · simp at h0
          · have hmem : pr.1 ∈ labels := by
              rw [hzdef] at hpr
              rcases pr with ⟨a, b⟩
              exact (List.of_mem_zip hpr).1
            rw [hx1]
            exact hrange n vectors hn1 pr.1 hmem
        have hbound : (groups.map Prod.fst).length ≤ n :=
          nodup_bounded_length_le _ n hnd hsub
        rw [List.length_map] at hbound
        have : n = min k valid.length := by
          rw [hndef]
          simp only [effectiveClusterCount]
          omega
        omega

/-- C6 witness: the amended theorem applied to the single-vector fixture
(`k = 5`, all-zeros KMeans). -/
theorem clustering_effective_count_and_emptiness_witness :
    ((performClustering kmeansAll0 procK [paperVec] 5 []).1 = [] ↔
      (enrichPapers procK [paperVec] []).1.filter usableVector = []) ∧
    (performClustering kmeansAll0 procK [paperVec] 5 []).1.length ≤
      min 5 ((enrichPapers procK [paperVec] []).1.filter usableVector).length :=
  clustering_effective_count_and_emptiness kmeansAll0 procK [paperVec] 5 []
    rfl (by omega)
    (fun n vs _ => by simp [kmeansAll0])
    (fun n vs hn l hl => by
      simp only [kmeansAll0] at hl
      rw [List.eq_of_mem_replicate hl]
      omega)

/-! ## C7 — undirected, self-loop-free co-occurrence graph -/

theorem char_eq_of_toNat_eq (a b : Char) (h : a.toNat = b.toNat) : a = b := by
  have h1 := Char.ofNat_toNat a
  have h2 := Char.ofNat_toNat b
  rw [← h1, ← h2, h]

theorem listLtCh_conn :
    ∀ (a b : List Char), listLtCh a b = false → listLtCh b a = false → a = b := by
  intro a
  induction a with
  | nil =>
    intro b h1 _
    cases b with
    | nil => rfl
    | cons c d => simp [listLtCh] at h1
  | cons x xs ih =>
    intro b h1 h2
    cases b with
    | nil => simp [listLtCh] at h2
    | cons y ys =>
      simp only [listLtCh, Bool.or_eq_false_iff, Bool.and_eq_false_iff,
        decide_eq_false_iff_not] at h1 h2
      have hxy : x.toNat = y.toNat := by omega
      have htail : listLtCh xs ys = false := by
        rcases h1.2 with ha | hb
        · exact absurd hxy (by simpa using ha)
        · exact hb
      have htail2 : listLtCh ys xs = false := by
        rcases h2.2 with ha | hb
        · exact absurd hxy.symm (by simpa using ha)
        · exact hb
      rw [char_eq_of_toNat_eq x y hxy, ih ys htail htail2]

theorem sortPair_comm (a b : String) : sortPair a b = sortPair b a := by
  simp only [sortPair]
  by_cases h1 : strLt b a = true
  · rw [if_pos h1]
    have h2 : strLt a b = false := by
      by_contra hc
      have hc2 : strLt a b = true := by
        cases hx : strLt a b
        · exact absurd hx hc
        · rfl
      simp only [strLt] at h1 hc2
      have := listLtCh_conn a.toList b.toList
      rcases hx : listLtCh a.toList b.toList
      · rw [hx] at hc2
        exact absurd hc2 (by simp)
      · rcases hy : listLtCh b.toList a.toList
        · rw [hy] at h1
          exact absurd h1 (by simp)
        · -- both directions strictly less: impossible
          exfalso
          clear this
          revert hx hy
          generalize a.toList = la
          generalize b.toList = lb
          intro hx hy
          induction la generalizing lb with
          | nil =>
            cases lb with
            | nil => simp [listLtCh] at hx
            | cons c d => simp [listLtCh] at hy
          | cons u us ihu =>
            cases lb with
            | nil => simp [listLtCh] at hx
            | cons v vs =>
              simp only [listLtCh, Bool.or_eq_true, Bool.and_eq_true,
                decide_eq_true_eq] at hx hy
              rcases hx with hx1 | ⟨hx1, hx2⟩ <;> rcases hy with hy1 | ⟨hy1, hy2⟩
              · omega
              · omega
              · omega
              · exact ihu vs hx2 hy2
    rw [if_neg (by simp [h2])]
  · have h1f : strLt b a = false := by
      cases hx : strLt b a
      · rfl
      · exact absurd hx h1
    rw [if_neg (by simp [h1f])]
    by_cases h3 : strLt a b = true
    · rw [if_pos h3]
    · have h3f : strLt a b = false := by
        cases hx : strLt a b
        · rfl
        · exact absurd hx h3
      rw [if_neg (by simp [h3f])]
      simp only [strLt] at h1f h3f
      have hab : a.toList = b.toList := listLtCh_conn a.toList b.toList h3f h1f
      have : a = b := by
        have ha := congrArg String.mk hab
        simpa using ha
      rw [this]

theorem sortPair_ne (a b : String) (h : a ≠ b) :
    (sortPair a b).1 ≠ (sortPair a b).2 := by
  simp only [sortPair]
  by_cases h1 : strLt b a = true
  · rw [if_pos h1]
    exact fun hc => h hc.symm
  · rw [if_neg h1]
    exact h

theorem pairsOf_mem_ne :
    ∀ (kws : List String), kws.Nodup → ∀ pr ∈ pairsOf kws, pr.1 ≠ pr.2 := by
  intro kws
  induction kws with
  | nil =>
    intro _ pr hpr
    simp [pairsOf] at hpr
  | cons k rest ih =>
    intro hnd pr hpr
    simp only [pairsOf] at hpr
    rcases List.mem_append.mp hpr with h1 | h2
    · obtain ⟨k2, hk2, hpr2⟩ := List.mem_map.mp h1
      have hne : k ≠ k2 := by
        intro hc
        rw [hc] at hnd
        exact (List.nodup_cons.mp hnd).1 hk2
      rw [← hpr2]
      exact sortPair_ne k k2 hne
    · exact ih (List.nodup_cons.mp hnd).2 pr h2

theorem bump_keys_mem [DecidableEq α] (m : List (α × Nat)) (k : α) (x : α)
    (hx : x ∈ (bump m k).map Prod.fst) : x ∈ m.map Prod.fst ∨ x = k := by
  induction m with
  | nil =>
    simp only [bump, List.map_cons, List.map_nil, List.mem_singleton] at hx
    exact Or.inr hx
  | cons a rest ih =>
    rcases a with ⟨a1, n⟩
    simp only [bump] at hx
    by_cases h : a1 = k
    · rw [if_pos h] at hx
      simp only [List.map_cons, List.mem_cons] at hx
      rcases hx with h1 | h2
      · exact Or.inl (by simp [h1])
      · exact Or.inl (by simp [h2])
    · rw [if_neg h] at hx
      simp only [List.map_cons, List.mem_cons] at hx
      rcases hx with h1 | h2
      · exact Or.inl (by simp [h1])
      · rcases ih h2 with ha | hb
        · exact Or.inl (List.mem_cons_of_mem _ ha)
        · exact Or.inr hb

theorem foldl_bump_keys [DecidableEq α] :
    ∀ (l : List α) (m : List (α × Nat)) (x : α),
      x ∈ ((l.foldl bump m).map Prod.fst) → x ∈ m.map Prod.fst ∨ x ∈ l := by
  intro l
  induction l with
  | nil =>
    intro m x hx
    exact Or.inl hx
  | cons a rest ih =>
    intro m x hx
    simp only [List.foldl_cons] at hx
    rcases ih (bump m a) x hx with h1 | h2
    · rcases bump_keys_mem m a x h1 with ha | hb
      · exact Or.inl ha
      · exact Or.inr (by simp [hb])
    · exact Or.inr (List.mem_cons_of_mem _ h2)

theorem pairCounts_keys :
    ∀ (ps : List APaper) (m : List ((String × String) × Nat)) (x : String × String),
      x ∈ ((ps.foldl (fun m p => (pairsOf p.keywords).foldl bump m) m).map Prod.fst) →
      x ∈ m.map Prod.fst ∨ ∃ p ∈ ps, x ∈ pairsOf p.keywords := by
  intro ps
  induction ps with
  | nil =>
    intro m x hx
    exact Or.inl hx
  | cons p rest ih =>
    intro m x hx
    simp only [List.foldl_cons] at hx
    rcases ih _ x hx with h1 | ⟨p1, hp1, hx1⟩
    · rcases foldl_bump_keys (pairsOf p.keywords) m x h1 with ha | hb
      · exact Or.inl ha
      · exact Or.inr ⟨p, List.mem_cons_self _ _, hb⟩
    · exact Or.inr ⟨p1, List.mem_cons_of_mem _ hp1, hx1⟩

/-- C7 (amended): the co-occurrence graph is undirected — the pairs `(a,b)`
and `(b,a)` are canonicalized to the same sorted key, so they accumulate as
one edge — and when every (enriched) paper's keyword list is free of
duplicate entries, no self-loop edge is produced; a duplicated keyword
within one paper's list does produce a self-loop (two distinct positions,
equal keywords). -/
theorem cooccurrence_undirected_and_no_selfloops
    (proc : ProcFns) (papers0 : List APaper) (minW : Nat) (h : Heap)
    (hnd : ∀ p ∈ (enrichPapers proc papers0 h).1, p.keywords.Nodup) :
    (∀ a b, sortPair a b = sortPair b a) ∧
    ∀ l ∈ (buildCooccurrenceNetwork proc papers0 minW h).1.links,
      l.source ≠ l.target := by
  refine ⟨sortPair_comm, ?_⟩
  intro l hl
  rcases henr : enrichPapers proc papers0 h with ⟨papers, h1⟩
  rw [henr] at hnd
  simp only [buildCooccurrenceNetwork, henr] at hl
  obtain ⟨x, hx, hlx⟩ := List.mem_map.mp hl
  have hxm : x ∈ papers.foldl (fun m p => (pairsOf p.keywords).foldl bump m) [] :=
    List.mem_of_mem_filter hx
  have hxk : x.1 ∈ (papers.foldl
      (fun m p => (pairsOf p.keywords).foldl bump m) []).map Prod.fst :=
    List.mem_map.mpr ⟨x, hxm, rfl⟩
  rcases pairCounts_keys papers [] x.1 hxk with h0 | ⟨p, hp, hpr⟩
  · simp at h0
  · have hne := pairsOf_mem_ne p.keywords (hnd p hp) x.1 hpr
    rw [← hlx]
    exact hne

/-- C7 witness: the amended theorem applied to the two-distinct-keyword
fixture: the canonical pair key is symmetric, and the single produced edge
is not a self-loop. -/
theorem cooccurrence_undirected_and_no_selfloops_witness :
    sortPair "a" "b" = sortPair "b" "a" ∧ ("a" : String) ≠ "b" :=
  ⟨(cooccurrence_undirected_and_no_selfloops procK [paperAB] 1 [] (by decide)).1
      "a" "b",
    (cooccurrence_undirected_and_no_selfloops procK [paperAB] 1 [] (by decide)).2
      ⟨"a", "b", 1⟩ (by decide)⟩

/-! ## C8 — analyzers and caller-visible mutation -/

theorem heapGet_append (h ext : Heap) (a : Nat) (ha : a < h.length) :
    heapGet (h ++ ext) a = heapGet h a := by
  simp only [heapGet]
  exact List.getD_append h ext [] a ha

theorem freshFeat_append (h ext : Heap) (p : APaper)
    (hf : freshFeat h p = true) : freshFeat (h ++ ext) p = true := by
  cases hpf : p.features with
  | absent => simp only [freshFeat, hpf]
  | ref a =>
    simp only [freshFeat, hpf, Bool.and_eq_true, decide_eq_true_eq] at hf ⊢
    refine ⟨by rw [List.length_append]; omega, ?_⟩
    rw [heapGet_append h ext a hf.1]
    exact hf.2

theorem enrichOne_extends (proc : ProcFns) (p : APaper) (h : Heap)
    (hf : freshFeat h p = true) :
    ∃ ext, (enrichOne proc p h).2 = h ++ ext := by
  simp only [enrichOne]
  by_cases hpid : (if p.paperId ≠ "" then p.paperId else p.idField) = ""
  · rw [if_pos hpid]
    exact ⟨[], by rw [List.append_nil]⟩
  · rw [if_neg hpid]
    cases hpf : p.features with
    | absent => exact ⟨_, rfl⟩
    | ref a =>
      simp only [freshFeat, hpf, Bool.and_eq_true, decide_eq_true_eq] at hf
      simp only [hf.2, if_true]
      exact ⟨_, rfl⟩

theorem enrichPapers_extends (proc : ProcFns) :
    ∀ (ps : List APaper) (h : Heap),
      (∀ p ∈ ps, freshFeat h p = true) →
      ∃ ext, (enrichPapers proc ps h).2 = h ++ ext := by
  intro ps
  induction ps with
  | nil =>
    intro h _
    exact ⟨[], by rw [List.append_nil]; rfl⟩
  | cons p rest ih =>
    intro h hall
    obtain ⟨e1, he1⟩ := enrichOne_extends proc p h (hall p (List.mem_cons_self _ _))
    rcases hone : enrichOne proc p h with ⟨po, h1⟩
    have hh1 : h1 = h ++ e1 := by
      rw [hone] at he1
      exact he1
    have hrest : ∀ q ∈ rest, freshFeat h1 q = true := by
      intro q hq
      rw [hh1]
      exact freshFeat_append h e1 q (hall q (List.mem_cons_of_mem _ hq))
    obtain ⟨e2, he2⟩ := ih h1 hrest
    cases po with
    | none =>
      refine ⟨e1 ++ e2, ?_⟩
      simp only [enrichPapers, hone]
      rw [he2, hh1, List.append_assoc]
    | some p1 =>
      refine ⟨e1 ++ e2, ?_⟩
      simp only [enrichPapers, hone]
      rcases hrec : enrichPapers proc rest h1 with ⟨out, h2⟩
      have : h2 = h1 ++ e2 := by
        rw [hrec] at he2
        exact he2
      simp only [this, hh1, List.append_assoc]

/-- C8 (amended): all four collection analyzers touch the shared features
heap only through the common enrichment step; when every input paper's
`features` is missing, `None`, or an empty dict, enrichment only allocates
fresh dicts and every pre-existing heap cell is unchanged after any of the
four calls. (When a paper carries a non-empty features dict, its `attitude`
and `methods_label` entries ARE overwritten in place through the shared
reference — see the mutation counterexample.) -/
theorem analyzers_preserve_heap_when_features_fresh
    (proc : ProcFns) (papers0 : List APaper) (h : Heap)
    (hf : ∀ p ∈ papers0, freshFeat h p = true) :
    (∀ a, a < h.length →
      heapGet (enrichPapers proc papers0 h).2 a = heapGet h a) ∧
    ∀ (minW k : Nat) (env : ClusterEnv),
      (buildCooccurrenceNetwork proc papers0 minW h).2 =
        (enrichPapers proc papers0 h).2 ∧
      (performClustering env proc papers0 k h).2 =
        (enrichPapers proc papers0 h).2 ∧
      (analyzeTrends proc papers0 h).2 = (enrichPapers proc papers0 h).2 ∧
      (analyzeAttitudeEvolution proc papers0 h).2 =
        (enrichPapers proc papers0 h).2 := by
  constructor
  · intro a ha
    obtain ⟨ext, hext⟩ := enrichPapers_extends proc papers0 h hf
    rw [hext]
    exact heapGet_append h ext a ha
  · intro minW k env
    rcases henr : enrichPapers proc papers0 h with ⟨papers, h1⟩
    refine ⟨?_, ?_, ?_, ?_⟩
    · simp only [buildCooccurrenceNetwork, henr]
    · simp only [performClustering, henr]
      split
      · rfl
      · split
        · rfl
        · split
          · rfl
          · rfl
    · simp only [analyzeTrends, henr]
      split
      · rfl
      · rfl
    · simp only [analyzeAttitudeEvolution, henr]
      split
      · rfl
      · rfl

/-- C8 witness: the frame theorem applied to the fresh-features fixture —
the pre-existing heap cell survives the co-occurrence call unchanged. -/
theorem analyzers_preserve_heap_when_features_fresh_witness :
    heapGet (enrichPapers procK [paperFresh] heapAside).2 0 = heapGet heapAside 0 ∧
    (buildCooccurrenceNetwork procK [paperFresh] 1 heapAside).2 =
      (enrichPapers procK [paperFresh] heapAside).2 :=
  ⟨(analyzers_preserve_heap_when_features_fresh procK [paperFresh] heapAside
      (by decide)).1 0 (by decide),
    ((analyzers_preserve_heap_when_features_fresh procK [paperFresh] heapAside
      (by decide)).2 1 1 kmeansAll0).1⟩

/-! ## C9 — year removal before tokenization -/

theorem latin_not_digit (c : Char) (h : isLatinLetter c = true) : isDigitCh c = false := by
  simp only [isLatinLetter, Bool.or_eq_true, Bool.and_eq_true, decide_eq_true_eq] at h
  simp only [isDigitCh, Bool.and_eq_false_iff, decide_eq_false_iff_not]
  rcases h with ⟨h1, _⟩ | ⟨h1, _⟩
  · exact Or.inr fun g2 => absurd (le_trans h1 g2) (by decide)
  · exact Or.inr fun g2 => absurd (le_trans h1 g2) (by decide)

theorem cjk_not_digit (c : Char) (h : isCJK c = true) : isDigitCh c = false := by
  simp only [isCJK, Bool.and_eq_true, decide_eq_true_eq] at h
  simp only [isDigitCh, Bool.and_eq_false_iff, decide_eq_false_iff_not]
  refine Or.inr fun g2 => ?_
  have h9 : c.toNat ≤ 57 := g2
  omega

theorem tokenize_chars (cs : List Char) :
    ∀ t ∈ tokenize cs, ∀ ch ∈ t.toList, isLatinLetter ch = true ∨ isCJK ch = true := by
  induction cs using tokenize.induct with
  | case1 => intro t ht; simp [tokenize] at ht
  | case2 c t hlat hemp ih =>
    intro s hs
    rw [tokenize, if_pos hlat, if_pos hemp] at hs
    exact ih s hs
  | case3 c t hlat hemp ih =>
    intro s hs
    rw [tokenize, if_pos hlat, if_neg hemp] at hs
    rcases List.mem_cons.mp hs with rfl | hs'
    · intro ch hch
      rcases List.mem_cons.mp hch with rfl | hch'
      · exact Or.inl hlat
      · exact Or.inl (List.mem_takeWhile_imp hch')
    · exact ih s hs'
  | case4 c t hlat hcjk ih =>
    intro s hs
    rw [tokenize, if_neg hlat, if_pos hcjk] at hs
    rcases List.mem_cons.mp hs with rfl | hs'
    · intro ch hch
      rcases List.mem_cons.mp hch with rfl | hch'
      · exact Or.inr hcjk
      · exact Or.inr (List.mem_takeWhile_imp hch')
    · exact ih s hs'
  | case5 c t hlat hcjk ih =>
    intro s hs
    rw [tokenize, if_neg hlat, if_neg hcjk] at hs
    exact ih s hs

/-- C9 (amended): whenever tokenization of the query (after year-pattern
removal and language-marker removal) yields at least one surviving topic
term — i.e. the whole-query fallback of line 65 is NOT taken — no digit
character appears in any returned topic term: matched year spans are
removed before tokenization and the tokenizer only emits Latin-letter runs
and CJK runs. (When no term survives, the fallback returns the stripped
query itself, which can be exactly a year phrase — see the counterexample.) -/
theorem topicTerms_digit_free_unless_fallback (raw0 : String)
    (hnf : tokenTerms (pyStrip raw0).toList ≠ []) :
    ∀ t ∈ (parseQuery raw0).topicTerms, ∀ ch ∈ t.toList, isDigitCh ch = false := by
  have hterms : (parseQuery raw0).topicTerms = tokenTerms (pyStrip raw0).toList := by
    simp only [parseQuery]
    have h0 : (tokenTerms (pyStrip raw0).toList).isEmpty = false := by
      cases hq : tokenTerms (pyStrip raw0).toList with
      | nil => exact absurd hq hnf
      | cons a l => rfl
    rw [h0]
    simp
  intro t ht ch hch
  rw [hterms] at ht
  have hmem : t ∈ tokenize (postLangText (pyStrip raw0).toList).2 :=
    (List.mem_filter.mp ht).1
  rcases tokenize_chars _ t hmem ch hch with hl | hc
  · exact latin_not_digit ch hl
  · exact cjk_not_digit ch hc

/-- C9 witness: on "digital governance 2018" the year is stripped by the
bare-year pattern, two topic terms survive, and neither contains a digit. -/
theorem topicTerms_digit_free_unless_fallback_witness :
    tokenTerms (pyStrip "digital governance 2018").toList ≠ [] ∧
    ∀ t ∈ (parseQuery "digital governance 2018").topicTerms,
      ∀ ch ∈ t.toList, isDigitCh ch = false :=
  ⟨by decide, topicTerms_digit_free_unless_fallback _ (by decide)⟩
